import Mathlib

/-!
# Verification of the ijroi ImageJ ROI codec

Shallow embedding of `ijroi/ijroi.py` (read_roi / write_roi / the zip
wrappers) and proofs about the claims of the specification.

Modelling conventions:
* A byte stream is a `List Nat` of byte values together with explicit
  positions; `fileobj.read`/`seek` become positional lookups.
* Python's arbitrary-precision integers are `ℤ`/`ℕ`; the `np.int16`
  arrays used by the decoder wrap modulo 2^16 (two's complement),
  which is made explicit through `toInt16`/`wrap16`.  On the encoder
  side the point array is modelled with exact integer arithmetic (the
  dtype produced by `np.array` on Python ints), and `int.to_bytes`
  raising `OverflowError` becomes an `Except` failure that carries the
  bytes written so far.
* Python floats in the oval rasterizer are modelled as `ℚ`; `x / 0.0`
  raising `ZeroDivisionError` becomes `pydiv` returning an error.
* `np.float32` bit patterns are decoded into an explicit `F32` type
  (NaN / signed infinity / exact rational value); `float32` addition
  rounds to nearest, ties to even.
-/

namespace Ijroi

/-- Big-endian byte list of the low `nBytes` bytes of `v`
(the layout produced by `int.to_bytes(nBytes, byteorder='big')`). -/
def natBE : Nat → Nat → List Nat
  | 0, _ => []
  | k + 1, v => natBE k (v / 256) ++ [v % 256]

/-- Reinterpret a nonnegative integer as a 16-bit two's-complement value
(the effect of storing a Python int into an `np.int16` array). -/
def toInt16 (n : Nat) : ℤ :=
  if n % 65536 < 32768 then (n % 65536 : ℤ) else (n % 65536 : ℤ) - 65536

/-- Wrap an integer into `[-32768, 32767]` (two's complement, the effect of
`np.int16` arithmetic overflow). -/
def wrap16 (z : ℤ) : ℤ :=
  (z + 32768) % 65536 - 32768

/-- A `float32` value: NaN, a signed infinity, or an exact finite rational. -/
inductive F32 : Type where
  | nan : F32
  | inf : Bool → F32
  | fin : ℚ → F32
deriving DecidableEq, Repr

/-- Decode a 32-bit pattern as IEEE-754 binary32
(`np.int32(...).view(np.float32)`). -/
def decodeF32 (w : Nat) : F32 :=
  let b : ℕ := w % 2 ^ 32
  let sign : ℕ := b / 2 ^ 31
  let e : ℕ := b / 2 ^ 23 % 2 ^ 8
  let frac : ℕ := b % 2 ^ 23
  if e = 255 then
    if frac = 0 then .inf (decide (sign = 1)) else .nan
  else
    let mag : ℚ :=
      if e = 0 then (frac : ℚ) * (2 : ℚ) ^ (-149 : ℤ)
      else ((2 ^ 23 + frac : ℕ) : ℚ) * (2 : ℚ) ^ ((e : ℤ) - 150)
    .fin (if sign = 1 then -mag else mag)

/-- Round a positive integer mantissa `n` (value `n * 2 ^ (-149)`, with
`n ≥ 2 ^ 24`) to 24 bits, nearest, ties to even.  Returns `(m, k)` with
rounded value `m * 2 ^ (k - 149)`. -/
def roundMantissa (n : Nat) : Nat × Nat :=
  let k := n.log2 - 23
  let m0 := n >>> k
  let r := n % 2 ^ k
  let m :=
    if 2 ^ k < 2 * r then m0 + 1
    else if 2 * r < 2 ^ k then m0
    else if m0 % 2 = 0 then m0 else m0 + 1
  if m = 2 ^ 24 then (2 ^ 23, k + 1) else (m, k)

/-- Round the exact value `z * 2 ^ (-149)` to the nearest `float32`. -/
def roundF32ofInt (z : ℤ) : F32 :=
  if z = 0 then .fin 0
  else if z.natAbs < 2 ^ 24 then .fin ((z : ℚ) * (2 : ℚ) ^ (-149 : ℤ))
  else
    let mk := roundMantissa z.natAbs
    if 253 < mk.2 then .inf (z < 0)
    else .fin ((if z < 0 then -(mk.1 : ℚ) else (mk.1 : ℚ)) * (2 : ℚ) ^ ((mk.2 : ℤ) - 149))

/-- The exact value of a finite `float32` scaled by `2 ^ 149` (an integer). -/
def scaled149 (q : ℚ) : ℤ :=
  (q * 2 ^ 149).num

/-- `float32` addition (IEEE-754, round to nearest, ties to even). -/
def f32add : F32 → F32 → F32
  | .nan, _ => .nan
  | .inf _, .nan => .nan
  | .fin _, .nan => .nan
  | .inf s, .inf t => if s = t then .inf s else .nan
  | .inf s, .fin _ => .inf s
  | .fin _, .inf t => .inf t
  | .fin a, .fin b => roundF32ofInt (scaled149 (a + b))

/-- Errors raised by `read_roi`: bad magic (`ValueError`), unexpected EOF
(`IOError`), unsupported type/subtype/feature (`NotImplementedError`) and
float division by zero (`ZeroDivisionError`). -/
inductive RErr : Type where
  | badMagic : RErr
  | eof : RErr
  | unsupported : RErr
  | zeroDiv : RErr
deriving DecidableEq, Repr

/-- The decoded point array: an `np.int16` n×2 array or an `np.float32`
n×2 array, each row a `(row, col)` pair. -/
inductive RoiResult : Type where
  | ints : List (ℤ × ℤ) → RoiResult
  | floats : List (F32 × F32) → RoiResult
deriving DecidableEq, Repr

/-- `get8`: read the byte at position `i`, `IOError` past EOF. -/
def get8 (d : List Nat) (i : Nat) : Except RErr Nat :=
  match d.get? i with
  | some b => .ok b
  | none => .error .eof

/-- `get16`: big-endian 16-bit read at position `i`. -/
def get16 (d : List Nat) (i : Nat) : Except RErr Nat := do
  let b0 ← get8 d i
  let b1 ← get8 d (i + 1)
  pure ((b0 <<< 8) ||| b1)

/-- `get32`: big-endian 32-bit read at position `i`. -/
def get32 (d : List Nat) (i : Nat) : Except RErr Nat := do
  let s0 ← get16 d i
  let s1 ← get16 d (i + 2)
  pure ((s0 <<< 16) ||| s1)

/-- `getfloat`: 32-bit read, bit pattern reinterpreted as `float32`. -/
def getfloat (d : List Nat) (i : Nat) : Except RErr F32 := do
  let w ← get32 d i
  pure (decodeF32 w)

/-- `count` consecutive 16-bit big-endian reads starting at `base`. -/
def getN16 (d : List Nat) (base : Nat) : Nat → Except RErr (List Nat)
  | 0 => .ok []
  | c + 1 => do
    let v ← get16 d base
    let vs ← getN16 d (base + 2) c
    pure (v :: vs)

/-- `count` consecutive `float32` reads starting at `base`. -/
def getNf (d : List Nat) (base : Nat) : Nat → Except RErr (List F32)
  | 0 => .ok []
  | c + 1 => do
    let v ← getfloat d base
    let vs ← getNf d (base + 4) c
    pure (v :: vs)

/-- `subPixelResolution = ((options & SUB_PIXEL_RESOLUTION) != 0) and
(version >= 222)` (line 152 of the source). -/
def subPixelCalc (options version : Nat) : Bool :=
  (options &&& 128 != 0) && decide (222 ≤ version)

/-- Python float division: `ZeroDivisionError` on a zero denominator. -/
def pydiv (a b : ℚ) : Except RErr ℚ :=
  if b = 0 then .error .zeroDiv else .ok (a / b)

/-- `range(a, b + 1)` as a list of naturals. -/
def natRange (a b : Nat) : List Nat :=
  List.range' a (b + 1 - a)

/-- The ellipse-membership test of the oval rasterizer, at pixel corner
`(cornerX, cornerY)` (pixel center `corner + 0.5`). -/
def ovalTest (cX cY rx ry : ℚ) (cornerX cornerY : Nat) : Except RErr Bool := do
  let x : ℚ := (cornerX : ℚ) + 1 / 2
  let y : ℚ := (cornerY : ℚ) + 1 / 2
  let t1 ← pydiv ((x - cX) ^ 2) (rx ^ 2)
  let t2 ← pydiv ((y - cY) ^ 2) (ry ^ 2)
  pure (decide (t1 + t2 ≤ 1))

/-- Inner loop of the oval rasterizer: scan `corner_y` values for a fixed
`corner_x`, appending `[corner_y, corner_x]` rows for members. -/
def ovalInner (cX cY rx ry : ℚ) (cornerX : Nat) :
    List Nat → Except RErr (List (ℤ × ℤ))
  | [] => .ok []
  | cy :: rest => do
    let b ← ovalTest cX cY rx ry cornerX cy
    let tail ← ovalInner cX cY rx ry cornerX rest
    if b then pure ((toInt16 cy, toInt16 cornerX) :: tail) else pure tail

/-- Outer loop of the oval rasterizer: scan `corner_x` values. -/
def ovalOuter (cX cY rx ry : ℚ) (ys : List Nat) :
    List Nat → Except RErr (List (ℤ × ℤ))
  | [] => .ok []
  | cx :: rest => do
    let first ← ovalInner cX cY rx ry cx ys
    let more ← ovalOuter cX cY rx ry ys rest
    pure (first ++ more)

/-- The `RoiType.OVAL` branch of `read_roi` (lines 163-192): rasterize the
ellipse inscribed in the bounding box, returning an `np.int16` array. -/
def ovalDecode (top left bottom right : Nat) : Except RErr RoiResult := do
  let width : ℤ := (right : ℤ) - (left : ℤ)
  let height : ℤ := (bottom : ℤ) - (top : ℤ)
  let rx : ℚ := (width : ℚ) / 2
  let ry : ℚ := (height : ℚ) / 2
  let cX : ℚ := (left : ℚ) + rx
  let cY : ℚ := (top : ℚ) + ry
  let pts ← ovalOuter cX cY rx ry (natRange top bottom) (natRange left right)
  pure (.ints pts)

/-- `read_roi` (lines 53-271 of the source), as a function of the whole
byte stream.  Sequential reads and seeks become positional reads; the
returned value is the decoded point array (the parsed name is read and
discarded, exactly as in the source). -/
def read_roi (d : List Nat) : Except RErr RoiResult :=
  if d.take 4 = [73, 111, 117, 116] then do
    let version ← get16 d 4
    let roiType ← get8 d 6
    let _ ← get8 d 7
    let top ← get16 d 8
    let left ← get16 d 10
    let bottom ← get16 d 12
    let right ← get16 d 14
    let nCoordinates ← get16 d 16
    let x1 ← getfloat d 18
    let y1 ← getfloat d 22
    let x2 ← getfloat d 26
    let y2 ← getfloat d 30
    let _ ← get16 d 34
    let _ ← get32 d 36
    let _ ← get32 d 40
    let _ ← get32 d 44
    let subtypeField ← get16 d 48
    let options ← get16 d 50
    let _ ← get8 d 52
    let _ ← get8 d 53
    let _ ← get16 d 54
    let _ ← get32 d 56
    let header2offset ← get32 d 60
    let subPixel := subPixelCalc options version
    if roiType = 7 ∨ roiType = 8 ∨ roiType = 0 ∨ roiType = 1 ∨ roiType = 10 ∨ roiType = 2 then
      if subtypeField ≠ 0 then .error .unsupported
      else if roiType = 2 then
        if subPixel then .error .unsupported
        else ovalDecode top left bottom right
      else if roiType = 1 then
        if subPixel then
          .ok (.floats [(y1, x1), (y1, f32add x1 x2),
            (f32add y1 y2, f32add x1 x2), (f32add y1 y2, x1)])
        else
          .ok (.ints [(toInt16 top, toInt16 left), (toInt16 top, toInt16 right),
            (toInt16 bottom, toInt16 right), (toInt16 bottom, toInt16 left)])
      else if subPixel then do
        let cols ← getNf d (64 + 4 * nCoordinates) nCoordinates
        let rows ← getNf d (64 + 4 * nCoordinates + 4 * nCoordinates) nCoordinates
        let nameOffset ← get32 d (header2offset + 16)
        let nameLength ← get32 d (header2offset + 20)
        let _name ← getN16 d nameOffset nameLength
        .ok (.floats (rows.zip cols))
      else do
        let cols ← getN16 d 64 nCoordinates
        let rows ← getN16 d (64 + 2 * nCoordinates) nCoordinates
        let nameOffset ← get32 d (header2offset + 16)
        let nameLength ← get32 d (header2offset + 20)
        let _name ← getN16 d nameOffset nameLength
        .ok (.ints ((rows.zip cols).map (fun rc =>
          (wrap16 (toInt16 rc.1 + (top : ℤ)), wrap16 (toInt16 rc.2 + (left : ℤ))))))
    else .error .unsupported
  else .error .badMagic

/-- The name-parsing steps of `read_roi` (lines 256-265), exposed: seek to
`header2offset + NAME_OFFSET`/`+ NAME_LENGTH`, then read `name_length`
16-bit code units from `name_offset`. -/
def readRoiName (d : List Nat) : Except RErr (List Nat) := do
  let header2offset ← get32 d 60
  let nameOffset ← get32 d (header2offset + 16)
  let nameLength ← get32 d (header2offset + 20)
  getN16 d nameOffset nameLength

/-- Errors raised by `write_roi`: unsupported roi type, missing name
(both `NotImplementedError`), `np.min` on an empty array (`ValueError`)
and `int.to_bytes` out of range (`OverflowError`).  Each error carries
the bytes already written to the stream. -/
inductive WriteErr : Type where
  | unsupportedType : WriteErr
  | missingName : WriteErr
  | emptyPoints : WriteErr
  | overflow : WriteErr
deriving DecidableEq, Repr

/-- `write_bytes(num, n_bytes, signed)` (lines 300-312): append the
big-endian `n_bytes`-byte encoding of `num` to the stream; 2-byte fields
default to signed, all others to unsigned; out-of-range values raise
`OverflowError` (leaving the stream as written so far). -/
def write_bytes (num : ℤ) (nBytes : Nat) (signedArg : Option Bool)
    (buf : List Nat) : Except (WriteErr × List Nat) (List Nat) :=
  let sgn := signedArg.getD (nBytes == 2)
  if sgn then
    if -((2 : ℤ) ^ (8 * nBytes - 1)) ≤ num ∧ num < (2 : ℤ) ^ (8 * nBytes - 1) then
      .ok (buf ++ natBE nBytes (num % ((2 : ℤ) ^ (8 * nBytes))).toNat)
    else .error (.overflow, buf)
  else
    if 0 ≤ num ∧ num < (2 : ℤ) ^ (8 * nBytes) then
      .ok (buf ++ natBE nBytes num.toNat)
    else .error (.overflow, buf)

/-- The coordinate loops of `write_roi` (lines 392-397): each value as a
2-byte (signed, by default) big-endian field. -/
def writeCoords : List ℤ → List Nat → Except (WriteErr × List Nat) (List Nat)
  | [], buf => .ok buf
  | v :: vs, buf => do
    let buf ← write_bytes v 2 none buf
    writeCoords vs buf

/-- The name loop of `write_roi` (lines 412-414): each code point as a
2-byte unsigned big-endian field. -/
def writeName : List Nat → List Nat → Except (WriteErr × List Nat) (List Nat)
  | [], buf => .ok buf
  | c :: cs, buf => do
    let buf ← write_bytes (c : ℤ) 2 (some false) buf
    writeName cs buf

/-- Minimum of a nonempty integer list (`np.min` along one column);
the empty case is unreachable behind `write_roi`'s emptiness check. -/
def listMin : List ℤ → ℤ
  | [] => 0
  | x :: xs => xs.foldl min x

/-- Maximum of a nonempty integer list (`np.max` along one column). -/
def listMax : List ℤ → ℤ
  | [] => 0
  | x :: xs => xs.foldl max x

/-- `write_roi(points, fileobj, name, roi_type)` (lines 281-417).  Points
are `(row, col)` pairs with exact integer arithmetic (the array dtype
`np.array` gives Python ints); a name is `some` list of code points
(`None` becomes `none`).  Returns the bytes written, or an error paired
with the partial output. -/
def write_roi (points : List (ℤ × ℤ)) (name : Option (List Nat))
    (roiType : Nat) : Except (WriteErr × List Nat) (List Nat) :=
  if roiType ≠ 0 ∧ roiType ≠ 2 then .error (.unsupportedType, [])
  else match name with
  | none => .error (.missingName, [])
  | some nm =>
    if points = [] then .error (.emptyPoints, []) else do
    let top : ℤ := listMin (points.map Prod.fst)
    let left : ℤ := listMin (points.map Prod.snd)
    let bottom : ℤ := listMax (points.map Prod.fst)
    let right : ℤ := listMax (points.map Prod.snd)
    let offs : List (ℤ × ℤ) := points.map (fun p => (p.1 - top, p.2 - left))
    let nCoordinates : Nat := if roiType = 0 then points.length else 0
    let buf : List Nat := [73, 111, 117, 116]
    let buf ← write_bytes 217 2 none buf
    let buf ← write_bytes (roiType : ℤ) 1 none buf
    let buf ← write_bytes 0 1 none buf
    let buf ← write_bytes top 2 none buf
    let buf ← write_bytes left 2 none buf
    let buf ← write_bytes bottom 2 none buf
    let buf ← write_bytes right 2 none buf
    let buf ← write_bytes (nCoordinates : ℤ) 2 none buf
    let buf ← write_bytes 0 4 none buf
    let buf ← write_bytes 0 4 none buf
    let buf ← write_bytes 0 4 none buf
    let buf ← write_bytes 0 4 none buf
    let buf ← write_bytes 0 2 none buf
    let buf ← write_bytes 0 4 none buf
    let buf ← write_bytes 0 4 none buf
    let buf ← write_bytes 0 4 none buf
    let buf ← write_bytes 0 2 none buf
    let buf ← write_bytes 0 2 none buf
    let buf ← write_bytes 0 1 none buf
    let buf ← write_bytes 0 1 none buf
    let buf ← write_bytes 0 2 none buf
    let buf ← write_bytes 1 4 none buf
    let header2offset : Nat := (buf.length - 4) + 2 * nCoordinates * 2 + 8
    let buf ← write_bytes (header2offset : ℤ) 4 none buf
    let buf ←
      if roiType = 0 then do
        let buf ← writeCoords (offs.map Prod.snd) buf
        writeCoords (offs.map Prod.fst) buf
      else pure buf
    let buf ← write_bytes 0 16 none buf
    let hardcodedNameOffset : Nat := header2offset + 48 + 4
    let buf ← write_bytes (hardcodedNameOffset : ℤ) 4 none buf
    let buf ← write_bytes (nm.length : ℤ) 4 none buf
    let buf ← write_bytes 0 (hardcodedNameOffset - header2offset - 24) none buf
    writeName nm buf

/-- `'.roi'` as code points. -/
def roiSuffix : List Nat := [46, 114, 111, 105]

/-- The entry name used by `write_roi_zip`: the ROI name with `.roi`
appended when missing (lines 432-435). -/
def entryName (nm : List Nat) : List Nat :=
  if roiSuffix.isSuffixOf nm then nm else nm ++ roiSuffix

/-- `write_roi_zip(name2points, fname, roi_type)` (lines 424-441); the zip
archive is modelled as the ordered list of `(entry name, entry bytes)`
pairs. -/
def write_roi_zip (pairs : List (List Nat × List (ℤ × ℤ))) (roiType : Nat) :
    Except (WriteErr × List Nat) (List (List Nat × List Nat)) :=
  match pairs with
  | [] => .ok []
  | (nm, pts) :: rest => do
    let bytes ← write_roi pts (some nm) roiType
    let others ← write_roi_zip rest roiType
    pure ((entryName nm, bytes) :: others)

/-- `ZipFile.read(n)`: the content of the archive entry named `n`; with
duplicate entry names the archive directory maps a name to its last
occurrence. -/
def zfRead (archive : List (List Nat × List Nat)) (n : List Nat) : List Nat :=
  match archive.reverse.find? (fun e => e.1 == n) with
  | some e => e.2
  | none => []

/-- `read_roi_zip(fname)` (lines 274-276): decode every entry, in archive
listing order, returning `(entry name, decoded points)` pairs. -/
def read_roi_zip (archive : List (List Nat × List Nat)) :
    List (List Nat × Except RErr RoiResult) :=
  archive.map (fun e => (e.1, read_roi (zfRead archive e.1)))

/-- The byte at position `i` of the stream (0 past EOF); used to state
theorems about header fields. -/
def byteD (d : List Nat) (i : Nat) : Nat :=
  d.getD i 0

/-- The big-endian 16-bit header field at offset `i`. -/
def hdr16 (d : List Nat) (i : Nat) : Nat :=
  (byteD d i <<< 8) ||| byteD d (i + 1)

/-- The big-endian 32-bit header field at offset `i`. -/
def hdr32 (d : List Nat) (i : Nat) : Nat :=
  (hdr16 d i <<< 16) ||| hdr16 d (i + 2)

/-! ## Basic lemmas -/

instance instDecEqExcept {ε α : Type} [DecidableEq ε] [DecidableEq α] :
    DecidableEq (Except ε α) := fun a b =>
  match a, b with
  | .error e, .error f =>
    if h : e = f then isTrue (congrArg Except.error h)
    else isFalse (fun hh => h (Except.error.inj hh))
  | .error _, .ok _ => isFalse (fun hh => Except.noConfusion hh)
  | .ok _, .error _ => isFalse (fun hh => Except.noConfusion hh)
  | .ok v, .ok w =>
    if h : v = w then isTrue (congrArg Except.ok h)
    else isFalse (fun hh => h (Except.ok.inj hh))

@[simp]
theorem exceptBind_ok {ε α β : Type} (a : α) (f : α → Except ε β) :
    (Except.ok a : Except ε α) >>= f = f a := rfl

@[simp]
theorem exceptBind_error {ε α β : Type} (e : ε) (f : α → Except ε β) :
    (Except.error e : Except ε α) >>= f = (Except.error e : Except ε β) := rfl

theorem shiftOr_eq (k a b : Nat) (hb : b < 2 ^ k) :
    (a <<< k) ||| b = 2 ^ k * a + b := by
  rw [Nat.shiftLeft_eq]
  apply Nat.eq_of_testBit_eq
  intro i
  rw [Nat.testBit_or]
  show _ = Nat.testBit (2 ^ k * a + b) i
  rw [Nat.testBit_mul_pow_two_add a hb, Nat.mul_comm a, Nat.testBit_mul_pow_two]
  by_cases h : i < k
  · simp [h, Nat.not_le_of_lt h]
  · have hbf : b.testBit i = false :=
      Nat.testBit_lt_two_pow (lt_of_lt_of_le hb (Nat.pow_le_pow_right (by norm_num) (Nat.le_of_not_lt h)))
    simp [h, Nat.le_of_not_lt h, hbf]

theorem be2_recombine (v : Nat) (hv : v < 65536) :
    ((v / 256 % 256) <<< 8) ||| (v % 256) = v := by
  rw [shiftOr_eq 8 (v / 256 % 256) (v % 256) (by omega)]
  omega

@[simp]
theorem natBE_length (n v : Nat) : (natBE n v).length = n := by
  induction n generalizing v with
  | zero => rfl
  | succ k ih => simp [natBE, ih]

theorem natBE_two (v : Nat) : natBE 2 v = [v / 256 % 256, v % 256] := rfl

theorem natBE_lt (n v : Nat) : ∀ x ∈ natBE n v, x < 256 := by
  induction n generalizing v with
  | zero => simp [natBE]
  | succ k ih =>
    intro x hx
    simp only [natBE, List.mem_append, List.mem_singleton] at hx
    rcases hx with h | h
    · exact ih _ _ h
    · omega

theorem toInt16_eq_wrap16 (n : Nat) : toInt16 n = wrap16 (n : ℤ) := by
  simp only [toInt16, wrap16]
  split <;> rename_i h <;> omega

theorem wrap16_eq_self (z : ℤ) (h1 : -32768 ≤ z) (h2 : z < 32768) :
    wrap16 z = z := by
  simp only [wrap16]; omega

theorem wrap16_add_congr (z w : ℤ) (h : (65536 : ℤ) ∣ z - w) :
    wrap16 z = wrap16 w := by
  simp only [wrap16]
  obtain ⟨c, hc⟩ := h
  have hz : z = w + 65536 * c := by linarith
  subst hz
  omega

theorem toInt16_small (n : Nat) (h : n < 32768) : toInt16 n = (n : ℤ) := by
  simp only [toInt16]
  have : n % 65536 = n := Nat.mod_eq_of_lt (by omega)
  split <;> omega

theorem foldl_min_mem (l : List ℤ) (acc : ℤ) : l.foldl min acc ∈ acc :: l := by
  induction l generalizing acc with
  | nil => simp
  | cons y ys ih =>
    simp only [List.foldl_cons]
    rcases List.mem_cons.mp (ih (min acc y)) with h | h
    · rcases min_choice acc y with hm | hm
      · rw [h, hm]; exact List.mem_cons_self _ _
      · rw [h, hm]; exact List.mem_cons_of_mem _ (List.mem_cons_self _ _)
    · exact List.mem_cons_of_mem _ (List.mem_cons_of_mem _ h)

theorem foldl_max_mem (l : List ℤ) (acc : ℤ) : l.foldl max acc ∈ acc :: l := by
  induction l generalizing acc with
  | nil => simp
  | cons y ys ih =>
    simp only [List.foldl_cons]
    rcases List.mem_cons.mp (ih (max acc y)) with h | h
    · rcases max_choice acc y with hm | hm
      · rw [h, hm]; exact List.mem_cons_self _ _
      · rw [h, hm]; exact List.mem_cons_of_mem _ (List.mem_cons_self _ _)
    · exact List.mem_cons_of_mem _ (List.mem_cons_of_mem _ h)

theorem listMin_mem (x : ℤ) (xs : List ℤ) : listMin (x :: xs) ∈ x :: xs := by
  simp only [listMin]
  exact foldl_min_mem xs x

theorem listMax_mem (x : ℤ) (xs : List ℤ) : listMax (x :: xs) ∈ x :: xs := by
  simp only [listMax]
  exact foldl_max_mem xs x

theorem foldl_min_le_init (l : List ℤ) (acc : ℤ) : l.foldl min acc ≤ acc := by
  induction l generalizing acc with
  | nil => simp
  | cons y ys ih =>
    simp only [List.foldl_cons]
    exact le_trans (ih (min acc y)) (min_le_left _ _)

theorem foldl_min_le_mem (l : List ℤ) (acc : ℤ) : ∀ a ∈ l, l.foldl min acc ≤ a := by
  induction l generalizing acc with
  | nil => simp
  | cons y ys ih =>
    intro a ha
    simp only [List.foldl_cons]
    rcases List.mem_cons.mp ha with rfl | ha2
    · exact le_trans (foldl_min_le_init ys (min acc a)) (min_le_right _ _)
    · exact ih (min acc y) a ha2

theorem init_le_foldl_max (l : List ℤ) (acc : ℤ) : acc ≤ l.foldl max acc := by
  induction l generalizing acc with
  | nil => simp
  | cons y ys ih =>
    simp only [List.foldl_cons]
    exact le_trans (le_max_left _ _) (ih (max acc y))

theorem mem_le_foldl_max (l : List ℤ) (acc : ℤ) : ∀ a ∈ l, a ≤ l.foldl max acc := by
  induction l generalizing acc with
  | nil => simp
  | cons y ys ih =>
    intro a ha
    simp only [List.foldl_cons]
    rcases List.mem_cons.mp ha with rfl | ha2
    · exact le_trans (le_max_right _ _) (init_le_foldl_max ys (max acc a))
    · exact ih (max acc y) a ha2

theorem listMin_le (x : ℤ) (xs : List ℤ) : ∀ a ∈ x :: xs, listMin (x :: xs) ≤ a := by
  intro a ha
  simp only [listMin]
  rcases List.mem_cons.mp ha with rfl | ha2
  · exact foldl_min_le_init xs a
  · exact foldl_min_le_mem xs x a ha2

theorem le_listMax (x : ℤ) (xs : List ℤ) : ∀ a ∈ x :: xs, a ≤ listMax (x :: xs) := by
  intro a ha
  simp only [listMax]
  rcases List.mem_cons.mp ha with rfl | ha2
  · exact init_le_foldl_max xs a
  · exact mem_le_foldl_max xs x a ha2

/-! ## Write-side reduction lemmas -/

/-- The two-byte signed big-endian encoding of an integer
(two's complement). -/
def sb2 (z : ℤ) : List Nat := natBE 2 (z % 65536).toNat

/-- The byte segment holding a list of 16-bit unsigned values. -/
def seg2N (vals : List Nat) : List Nat := (vals.map (natBE 2)).flatten

/-- The byte segment holding a list of 16-bit signed values. -/
def seg2Z (vals : List ℤ) : List Nat := (vals.map sb2).flatten

theorem write_bytes_ok2s (num : ℤ) (buf : List Nat)
    (h1 : -32768 ≤ num) (h2 : num < 32768) :
    write_bytes num 2 none buf = .ok (buf ++ sb2 num) := by
  simp only [write_bytes, sb2, Option.getD]
  norm_num
  omega

theorem write_bytes_ok2u (num : ℤ) (buf : List Nat)
    (h1 : 0 ≤ num) (h2 : num < 65536) :
    write_bytes num 2 (some false) buf = .ok (buf ++ natBE 2 num.toNat) := by
  simp only [write_bytes, Option.getD]
  norm_num
  omega

theorem write_bytes_oku (num : ℤ) (nB : Nat) (buf : List Nat)
    (hnb : (nB == 2) = false) (h1 : 0 ≤ num) (h2 : num < 2 ^ (8 * nB)) :
    write_bytes num nB none buf = .ok (buf ++ natBE nB num.toNat) := by
  simp only [write_bytes, Option.getD, hnb]
  norm_num
  omega

theorem writeCoords_ok (vals : List ℤ) (buf : List Nat)
    (h : ∀ v ∈ vals, -32768 ≤ v ∧ v < 32768) :
    writeCoords vals buf = .ok (buf ++ seg2Z vals) := by
  induction vals generalizing buf with
  | nil => simp [writeCoords, seg2Z]
  | cons v vs ih =>
    have hv := h v (List.mem_cons_self _ _)
    rw [writeCoords, write_bytes_ok2s v buf hv.1 hv.2]
    rw [exceptBind_ok]
    rw [ih _ (fun w hw => h w (List.mem_cons_of_mem _ hw))]
    simp [seg2Z, List.append_assoc]

theorem writeName_ok (nm : List Nat) (buf : List Nat)
    (h : ∀ c ∈ nm, c < 65536) :
    writeName nm buf = .ok (buf ++ seg2N nm) := by
  induction nm generalizing buf with
  | nil => simp [writeName, seg2N]
  | cons c cs ih =>
    have hc := h c (List.mem_cons_self _ _)
    rw [writeName, write_bytes_ok2u (c : ℤ) buf (by omega) (by exact_mod_cast hc)]
    rw [exceptBind_ok]
    rw [ih _ (fun w hw => h w (List.mem_cons_of_mem _ hw))]
    simp [seg2N, List.append_assoc]

/-- Bounding-box fields of the encoder. -/
def roiTop (P : List (ℤ × ℤ)) : ℤ := listMin (P.map Prod.fst)

/-- Bounding-box fields of the encoder. -/
def roiLeft (P : List (ℤ × ℤ)) : ℤ := listMin (P.map Prod.snd)

/-- Bounding-box fields of the encoder. -/
def roiBottom (P : List (ℤ × ℤ)) : ℤ := listMax (P.map Prod.fst)

/-- Bounding-box fields of the encoder. -/
def roiRight (P : List (ℤ × ℤ)) : ℤ := listMax (P.map Prod.snd)

theorem write_bytes_okuN (v : Nat) (nB : Nat) (buf : List Nat)
    (hnb : (nB == 2) = false) (h2 : v < 2 ^ (8 * nB)) :
    write_bytes (v : ℤ) nB none buf = .ok (buf ++ natBE nB v) := by
  rw [write_bytes_oku (v : ℤ) nB buf hnb (by positivity) (by exact_mod_cast h2)]
  simp

theorem write_bytes_ok2sN (v : Nat) (buf : List Nat) (h : v < 32768) :
    write_bytes (v : ℤ) 2 none buf = .ok (buf ++ natBE 2 v) := by
  rw [write_bytes_ok2s (v : ℤ) buf (by omega) (by exact_mod_cast h)]
  have : ((v : ℤ) % 65536).toNat = v := by omega
  rw [sb2, this]

/-- High byte of a 2-byte big-endian signed field. -/
def sb2Hi (z : ℤ) : Nat := (z % 65536).toNat / 256 % 256

/-- Low byte of a 2-byte big-endian signed field. -/
def sb2Lo (z : ℤ) : Nat := (z % 65536).toNat % 256

/-- High byte of a 2-byte big-endian unsigned field. -/
def be2Hi (v : Nat) : Nat := v / 256 % 256

/-- Low byte of a 2-byte big-endian unsigned field. -/
def be2Lo (v : Nat) : Nat := v % 256

/-- Bytes of a 4-byte big-endian unsigned field. -/
def be4b0 (v : Nat) : Nat := v / 256 / 256 / 256 % 256

/-- Bytes of a 4-byte big-endian unsigned field. -/
def be4b1 (v : Nat) : Nat := v / 256 / 256 % 256

/-- Bytes of a 4-byte big-endian unsigned field. -/
def be4b2 (v : Nat) : Nat := v / 256 % 256

/-- Bytes of a 4-byte big-endian unsigned field. -/
def be4b3 (v : Nat) : Nat := v % 256

/-- The 64 header bytes of a successful polygon `write_roi` call
(a flat literal list, so positional reads reduce cheaply). -/
def hdr64Bytes (P : List (ℤ × ℤ)) : List Nat :=
  [73, 111, 117, 116, 0, 217, 0, 0,
   sb2Hi (roiTop P), sb2Lo (roiTop P), sb2Hi (roiLeft P), sb2Lo (roiLeft P),
   sb2Hi (roiBottom P), sb2Lo (roiBottom P), sb2Hi (roiRight P), sb2Lo (roiRight P),
   be2Hi P.length, be2Lo P.length,
   0, 0, 0, 0, 0, 0, 0, 0, 0, 0, 0, 0, 0, 0, 0, 0,
   0, 0,
   0, 0, 0, 0, 0, 0, 0, 0, 0, 0, 0, 0,
   0, 0, 0, 0,
   0, 0, 0, 0,
   0, 0, 0, 1,
   be4b0 (64 + 4 * P.length), be4b1 (64 + 4 * P.length),
   be4b2 (64 + 4 * P.length), be4b3 (64 + 4 * P.length)]

/-- The header2/name trailer bytes of a successful polygon `write_roi`
call. -/
def trailerBytes (nPts : Nat) (N : List Nat) : List Nat :=
  natBE 16 0 ++ natBE 4 (116 + 4 * nPts) ++ natBE 4 N.length ++
  natBE 28 0 ++ seg2N N

/-- The byte image of a successful polygon `write_roi` call. -/
def roiBytes (P : List (ℤ × ℤ)) (N : List Nat) : List Nat :=
  hdr64Bytes P ++
  (seg2Z (P.map (fun p => p.2 - roiLeft P)) ++
  (seg2Z (P.map (fun p => p.1 - roiTop P)) ++
  trailerBytes P.length N))

set_option maxRecDepth 8192 in
theorem write_roi_shape (P : List (ℤ × ℤ)) (N : List Nat) (hne : P ≠ [])
    (htop : -32768 ≤ roiTop P ∧ roiTop P < 32768)
    (hleft : -32768 ≤ roiLeft P ∧ roiLeft P < 32768)
    (hbottom : -32768 ≤ roiBottom P ∧ roiBottom P < 32768)
    (hright : -32768 ≤ roiRight P ∧ roiRight P < 32768)
    (hoffC : ∀ p ∈ P, -32768 ≤ p.2 - roiLeft P ∧ p.2 - roiLeft P < 32768)
    (hoffR : ∀ p ∈ P, -32768 ≤ p.1 - roiTop P ∧ p.1 - roiTop P < 32768)
    (hn : P.length < 32768) (hNc : ∀ c ∈ N, c < 65536)
    (hNlen : N.length < 2 ^ 32) :
    write_roi P (some N) 0 = .ok (roiBytes P N) := by
  simp only [roiTop, roiLeft, roiBottom, roiRight] at htop hleft hbottom hright hoffC hoffR ⊢
  rw [write_roi]
  simp only [if_neg (by norm_num : ¬((0 : Nat) ≠ 0 ∧ (0 : Nat) ≠ 2)), if_neg hne,
    if_true, if_pos rfl]
  rw [write_bytes_ok2s 217 _ (by norm_num) (by norm_num)]
  rw [exceptBind_ok]
  rw [write_bytes_okuN 0 1 _ (by norm_num) (by norm_num)]
  rw [exceptBind_ok]
  rw [write_bytes_oku 0 1 _ (by norm_num) (by norm_num) (by norm_num)]
  rw [exceptBind_ok]
  rw [write_bytes_ok2s _ _ htop.1 htop.2]
  rw [exceptBind_ok]
  rw [write_bytes_ok2s _ _ hleft.1 hleft.2]
  rw [exceptBind_ok]
  rw [write_bytes_ok2s _ _ hbottom.1 hbottom.2]
  rw [exceptBind_ok]
  rw [write_bytes_ok2s _ _ hright.1 hright.2]
  rw [exceptBind_ok]
  rw [write_bytes_ok2sN P.length _ hn]
  rw [exceptBind_ok]
  rw [write_bytes_oku 0 4 _ (by norm_num) (by norm_num) (by norm_num)]
  rw [exceptBind_ok]
  rw [write_bytes_oku 0 4 _ (by norm_num) (by norm_num) (by norm_num)]
  rw [exceptBind_ok]
  rw [write_bytes_oku 0 4 _ (by norm_num) (by norm_num) (by norm_num)]
  rw [exceptBind_ok]
  rw [write_bytes_oku 0 4 _ (by norm_num) (by norm_num) (by norm_num)]
  rw [exceptBind_ok]
  rw [write_bytes_ok2s 0 _ (by norm_num) (by norm_num)]
  rw [exceptBind_ok]
  rw [write_bytes_oku 0 4 _ (by norm_num) (by norm_num) (by norm_num)]
  rw [exceptBind_ok]
  rw [write_bytes_oku 0 4 _ (by norm_num) (by norm_num) (by norm_num)]
  rw [exceptBind_ok]
  rw [write_bytes_oku 0 4 _ (by norm_num) (by norm_num) (by norm_num)]
  rw [exceptBind_ok]
  rw [write_bytes_ok2s 0 _ (by norm_num) (by norm_num)]
  rw [exceptBind_ok]
  rw [write_bytes_ok2s 0 _ (by norm_num) (by norm_num)]
  rw [exceptBind_ok]
  rw [write_bytes_oku 0 1 _ (by norm_num) (by norm_num) (by norm_num)]
  rw [exceptBind_ok]
  rw [write_bytes_oku 0 1 _ (by norm_num) (by norm_num) (by norm_num)]
  rw [exceptBind_ok]
  rw [write_bytes_ok2s 0 _ (by norm_num) (by norm_num)]
  rw [exceptBind_ok]
  rw [write_bytes_oku 1 4 _ (by norm_num) (by norm_num) (by norm_num)]
  rw [exceptBind_ok]
  have hsb2len : ∀ z : ℤ, (sb2 z).length = 2 := fun z => by simp [sb2]
  simp only [List.length_append, List.length_cons, List.length_nil, natBE_length, hsb2len]
  norm_num
  have h2off : (56 + 2 * (P.length : ℤ) * 2 + 8) = ((64 + 4 * P.length : ℕ) : ℤ) := by
    push_cast; ring
  rw [h2off, write_bytes_okuN (64 + 4 * P.length) 4 _ (by norm_num) (by omega)]
  rw [exceptBind_ok]
  have hcompS : (Prod.snd ∘ fun p : ℤ × ℤ =>
      (p.1 - listMin (List.map Prod.fst P), p.2 - listMin (List.map Prod.snd P))) =
      (fun p : ℤ × ℤ => p.2 - listMin (List.map Prod.snd P)) := rfl
  have hcompF : (Prod.fst ∘ fun p : ℤ × ℤ =>
      (p.1 - listMin (List.map Prod.fst P), p.2 - listMin (List.map Prod.snd P))) =
      (fun p : ℤ × ℤ => p.1 - listMin (List.map Prod.fst P)) := rfl
  rw [hcompS, hcompF]
  rw [writeCoords_ok _ _ (by
    intro v hv
    rw [List.mem_map] at hv
    obtain ⟨p, hp, rfl⟩ := hv
    exact hoffC p hp)]
  rw [exceptBind_ok]
  rw [writeCoords_ok _ _ (by
    intro v hv
    rw [List.mem_map] at hv
    obtain ⟨p, hp, rfl⟩ := hv
    exact hoffR p hp)]
  rw [exceptBind_ok]
  rw [write_bytes_oku 0 16 _ (by norm_num) (by norm_num) (by norm_num)]
  rw [exceptBind_ok]
  have h3 : (((64 + 4 * P.length : ℕ) : ℤ) + 48 + 4) = ((116 + 4 * P.length : ℕ) : ℤ) := by
    push_cast; ring
  rw [h3, write_bytes_okuN (116 + 4 * P.length) 4 _ (by norm_num) (by omega)]
  rw [exceptBind_ok]
  rw [write_bytes_okuN N.length 4 _ (by norm_num) (by omega)]
  rw [exceptBind_ok]
  have h4 : 56 + 2 * P.length * 2 + 8 + 48 + 4 - (56 + 2 * P.length * 2 + 8) - 24 = 28 := by
    omega
  rw [h4, write_bytes_oku 0 28 _ (by norm_num) (by norm_num) (by norm_num)]
  rw [exceptBind_ok]
  rw [writeName_ok N _ hNc]
  have hfT : sb2 (listMin (List.map Prod.fst P)) =
      [sb2Hi (listMin (List.map Prod.fst P)), sb2Lo (listMin (List.map Prod.fst P))] := rfl
  have hfL : sb2 (listMin (List.map Prod.snd P)) =
      [sb2Hi (listMin (List.map Prod.snd P)), sb2Lo (listMin (List.map Prod.snd P))] := rfl
  have hfB : sb2 (listMax (List.map Prod.fst P)) =
      [sb2Hi (listMax (List.map Prod.fst P)), sb2Lo (listMax (List.map Prod.fst P))] := rfl
  have hfR : sb2 (listMax (List.map Prod.snd P)) =
      [sb2Hi (listMax (List.map Prod.snd P)), sb2Lo (listMax (List.map Prod.snd P))] := rfl
  have hfN : natBE 2 P.length = [be2Hi P.length, be2Lo P.length] := rfl
  have hfH2 : natBE 4 (64 + 4 * P.length) =
      [be4b0 (64 + 4 * P.length), be4b1 (64 + 4 * P.length),
       be4b2 (64 + 4 * P.length), be4b3 (64 + 4 * P.length)] := rfl
  have hsb217 : sb2 217 = [0, 217] := rfl
  have hsb20 : sb2 0 = [0, 0] := rfl
  have hbe10 : natBE 1 0 = [0] := rfl
  have hbe40 : natBE 4 0 = [0, 0, 0, 0] := rfl
  have hbe41 : natBE 4 1 = [0, 0, 0, 1] := rfl
  simp [roiBytes, hdr64Bytes, trailerBytes, roiTop, roiLeft, roiBottom, roiRight,
    hsb217, hsb20, hbe10, hbe40, hbe41, hfT, hfL, hfB, hfR, hfN, hfH2,
    List.append_assoc]

/-! ## Read-side reduction lemmas -/

theorem get?_append_len (pre X : List Nat) (k : Nat) :
    (pre ++ X).get? (pre.length + k) = X.get? k := by
  rw [List.get?_append_right (by omega)]
  congr 1
  omega

theorem get8_at (pre X : List Nat) (k : Nat) :
    get8 (pre ++ X) (pre.length + k) = get8 X k := by
  unfold get8
  rw [get?_append_len]

theorem get16_at (pre post : List Nat) (K : Nat) (hK : K < 65536) :
    get16 (pre ++ (natBE 2 K ++ post)) pre.length = .ok K := by
  have h0 : get8 (pre ++ (natBE 2 K ++ post)) (pre.length + 0) =
      .ok (K / 256 % 256) := by
    rw [get8_at]
    rfl
  have h1 : get8 (pre ++ (natBE 2 K ++ post)) (pre.length + 1) =
      .ok (K % 256) := by
    rw [get8_at]
    rfl
  rw [get16, show pre.length = pre.length + 0 from rfl, h0]
  rw [exceptBind_ok, show pre.length + 0 + 1 = pre.length + 1 from rfl, h1]
  rw [exceptBind_ok]
  have hrec := be2_recombine K hK
  show Except.ok ((K / 256 % 256) <<< 8 ||| K % 256) = Except.ok K
  rw [hrec]

theorem natBE4_split (K : Nat) :
    natBE 4 K = natBE 2 (K / 65536) ++ natBE 2 (K % 65536) := by
  show [K / 256 / 256 / 256 % 256, K / 256 / 256 % 256, K / 256 % 256, K % 256] =
    [K / 65536 / 256 % 256, K / 65536 % 256, K % 65536 / 256 % 256, K % 65536 % 256]
  have e1 : K / 256 / 256 / 256 % 256 = K / 65536 / 256 % 256 := by omega
  have e2 : K / 256 / 256 % 256 = K / 65536 % 256 := by omega
  have e3 : K / 256 % 256 = K % 65536 / 256 % 256 := by omega
  have e4 : K % 256 = K % 65536 % 256 := by omega
  rw [e1, e2, e3, e4]

theorem get32_at (pre post : List Nat) (K : Nat) (hK : K < 2 ^ 32) :
    get32 (pre ++ (natBE 4 K ++ post)) pre.length = .ok K := by
  have hsplit : (pre ++ (natBE 4 K ++ post)) =
      pre ++ (natBE 2 (K / 65536) ++ (natBE 2 (K % 65536) ++ post)) := by
    rw [natBE4_split, List.append_assoc]
  have hsplit2 : (pre ++ (natBE 4 K ++ post)) =
      (pre ++ natBE 2 (K / 65536)) ++ (natBE 2 (K % 65536) ++ post) := by
    rw [hsplit, List.append_assoc]
  have hhi : get16 (pre ++ (natBE 4 K ++ post)) pre.length = .ok (K / 65536) := by
    rw [hsplit, get16_at _ _ _ (by omega)]
  have hlo : get16 (pre ++ (natBE 4 K ++ post)) (pre.length + 2) = .ok (K % 65536) := by
    have hlen : pre.length + 2 = (pre ++ natBE 2 (K / 65536)).length := by
      simp
    rw [hlen, hsplit2, get16_at _ _ _ (by omega)]
  rw [get32, hhi, exceptBind_ok, hlo, exceptBind_ok]
  show Except.ok ((K / 65536) <<< 16 ||| K % 65536) = Except.ok K
  rw [shiftOr_eq 16 _ _ (by omega)]
  congr 1
  omega

theorem seg2N_cons (v : Nat) (vs : List Nat) :
    seg2N (v :: vs) = natBE 2 v ++ seg2N vs := by
  simp [seg2N]

theorem seg2N_length (vals : List Nat) : (seg2N vals).length = 2 * vals.length := by
  induction vals with
  | nil => rfl
  | cons v vs ih => simp [seg2N_cons, ih]; omega

theorem seg2Z_eq_seg2N (vals : List ℤ) :
    seg2Z vals = seg2N (vals.map (fun z => (z % 65536).toNat)) := by
  simp [seg2Z, seg2N, List.map_map]
  rfl

theorem getN16_seg (vals : List Nat) : ∀ pre post : List Nat,
    (∀ v ∈ vals, v < 65536) →
    getN16 (pre ++ (seg2N vals ++ post)) pre.length vals.length = .ok vals := by
  induction vals with
  | nil => intro pre post _; rfl
  | cons v vs ih =>
    intro pre post hv
    show getN16 _ _ (vs.length + 1) = _
    rw [getN16]
    have hassoc : pre ++ (seg2N (v :: vs) ++ post) =
        pre ++ (natBE 2 v ++ (seg2N vs ++ post)) := by
      rw [seg2N_cons, List.append_assoc]
    rw [hassoc, get16_at _ _ _ (hv v (List.mem_cons_self _ _))]
    rw [exceptBind_ok]
    have hassoc2 : pre ++ (natBE 2 v ++ (seg2N vs ++ post)) =
        (pre ++ natBE 2 v) ++ (seg2N vs ++ post) := by
      rw [List.append_assoc]
    have hlen : pre.length + 2 = (pre ++ natBE 2 v).length := by simp
    rw [hassoc2, hlen, ih _ _ (fun w hw => hv w (List.mem_cons_of_mem _ hw))]
    rw [exceptBind_ok]
    rfl

theorem hdr64Bytes_length (P : List (ℤ × ℤ)) : (hdr64Bytes P).length = 64 := by
  simp [hdr64Bytes]


theorem get16_val (d : List Nat) (i : Nat) (X : Nat) (hX : X < 65536)
    (h : get16 d i = .ok ((X / 256 % 256) <<< 8 ||| X % 256)) :
    get16 d i = .ok X := by
  rw [h, be2_recombine X hX]

theorem be4_recombine (K : Nat) (hK : K < 2 ^ 32) :
    (((K / 256 / 256 / 256 % 256) <<< 8 ||| K / 256 / 256 % 256) <<< 16) |||
      ((K / 256 % 256) <<< 8 ||| K % 256) = K := by
  rw [shiftOr_eq 8 (K / 256 / 256 / 256 % 256) (K / 256 / 256 % 256) (by omega)]
  rw [shiftOr_eq 8 (K / 256 % 256) (K % 256) (by omega)]
  rw [shiftOr_eq 16 _ _ (by omega)]
  omega

theorem get32_val (d : List Nat) (i : Nat) (K : Nat) (hK : K < 2 ^ 32)
    (h : get32 d i = .ok ((((K / 256 / 256 / 256 % 256) <<< 8 ||| K / 256 / 256 % 256) <<< 16) |||
      ((K / 256 % 256) <<< 8 ||| K % 256))) :
    get32 d i = .ok K := by
  rw [h, be4_recombine K hK]

theorem get8_shift (A X : List Nat) (j : Nat) :
    get8 (A ++ X) (A.length + j) = get8 X j :=
  get8_at A X j

theorem get16_shift (A X : List Nat) (j : Nat) :
    get16 (A ++ X) (A.length + j) = get16 X j := by
  unfold get16
  rw [show A.length + j + 1 = A.length + (j + 1) from by omega]
  rw [get8_shift, get8_shift]

theorem get32_shift (A X : List Nat) (j : Nat) :
    get32 (A ++ X) (A.length + j) = get32 X j := by
  unfold get32
  rw [show A.length + j + 2 = A.length + (j + 2) from by omega]
  rw [get16_shift, get16_shift]

theorem getN16_shift (A X : List Nat) (c : Nat) : ∀ j : Nat,
    getN16 (A ++ X) (A.length + j) c = getN16 X j c := by
  induction c with
  | zero => intro j; rfl
  | succ c ih =>
    intro j
    show getN16 _ _ (c + 1) = getN16 _ _ (c + 1)
    rw [getN16, getN16, get16_shift]
    rw [show A.length + j + 2 = A.length + (j + 2) from by omega, ih (j + 2)]

theorem getN16_seg0 (vals post : List Nat) (hv : ∀ v ∈ vals, v < 65536) :
    getN16 (seg2N vals ++ post) 0 vals.length = .ok vals := by
  have h := getN16_seg vals [] post hv
  simpa using h

theorem getN16_seg00 (vals : List Nat) (hv : ∀ v ∈ vals, v < 65536) :
    getN16 (seg2N vals) 0 vals.length = .ok vals := by
  have h := getN16_seg0 vals [] hv
  simpa using h

theorem get32_at0 (K : Nat) (post : List Nat) (hK : K < 2 ^ 32) :
    get32 (natBE 4 K ++ post) 0 = .ok K := by
  have h := get32_at [] post K hK
  simpa using h

theorem map_eq_self_of {α : Type} (l : List α) (f : α → α) (h : ∀ a ∈ l, f a = a) :
    l.map f = l := by
  induction l with
  | nil => rfl
  | cons a as ih =>
    rw [List.map_cons, h a (List.mem_cons_self _ _),
      ih (fun b hb => h b (List.mem_cons_of_mem _ hb))]

theorem readVal (off t : ℤ) (h0 : 0 ≤ off) (h1 : off < 32768)
    (h2 : -32768 ≤ off + t) (h3 : off + t < 32768) :
    wrap16 (toInt16 ((off % 65536).toNat) + ((t % 65536).toNat : ℤ)) = off + t := by
  simp only [toInt16, wrap16]
  split <;> omega

/-- The column-offset payload read of `roiBytes`. -/
theorem roiBytes_cols (P : List (ℤ × ℤ)) (N : List Nat) :
    getN16 (roiBytes P N) 64 P.length =
      .ok ((P.map (fun p => p.2 - roiLeft P)).map (fun z : ℤ => (z % 65536).toNat)) := by
  have hvC : ∀ v ∈ (P.map (fun p => p.2 - roiLeft P)).map (fun z : ℤ => (z % 65536).toNat),
      v < 65536 := by
    intro v hv
    rw [List.mem_map] at hv
    obtain ⟨z, _, rfl⟩ := hv
    omega
  have hform : roiBytes P N = hdr64Bytes P ++
      (seg2N ((P.map (fun p => p.2 - roiLeft P)).map (fun z : ℤ => (z % 65536).toNat)) ++
      (seg2Z (P.map (fun p => p.1 - roiTop P)) ++ trailerBytes P.length N)) := by
    unfold roiBytes
    rw [seg2Z_eq_seg2N]
  rw [hform]
  rw [show (64:ℕ) = (hdr64Bytes P).length + 0 from by rw [hdr64Bytes_length]]
  rw [getN16_shift]
  rw [show P.length =
    ((P.map (fun p => p.2 - roiLeft P)).map (fun z : ℤ => (z % 65536).toNat)).length
    from by simp]
  exact getN16_seg0 _ _ hvC

/-- The canonical right-associated decomposition of `roiBytes`. -/
theorem roiBytes_form (P : List (ℤ × ℤ)) (N : List Nat) :
    roiBytes P N = hdr64Bytes P ++
      (seg2N ((P.map (fun p => p.2 - roiLeft P)).map (fun z : ℤ => (z % 65536).toNat)) ++
      (seg2N ((P.map (fun p => p.1 - roiTop P)).map (fun z : ℤ => (z % 65536).toNat)) ++
      (natBE 16 0 ++ (natBE 4 (116 + 4 * P.length) ++ (natBE 4 N.length ++
      (natBE 28 0 ++ seg2N N)))))) := by
  unfold roiBytes trailerBytes
  rw [seg2Z_eq_seg2N, seg2Z_eq_seg2N]
  simp [List.append_assoc]

/-- Length of the column segment. -/
theorem roiBytes_lenC (P : List (ℤ × ℤ)) :
    (seg2N ((P.map (fun p => p.2 - roiLeft P)).map
      (fun z : ℤ => (z % 65536).toNat))).length = 2 * P.length := by
  simp [seg2N_length]

/-- Length of the row segment. -/
theorem roiBytes_lenR (P : List (ℤ × ℤ)) :
    (seg2N ((P.map (fun p => p.1 - roiTop P)).map
      (fun z : ℤ => (z % 65536).toNat))).length = 2 * P.length := by
  simp [seg2N_length]

/-- The row-offset payload read of `roiBytes`. -/
theorem roiBytes_rows (P : List (ℤ × ℤ)) (N : List Nat) :
    getN16 (roiBytes P N) (64 + 2 * P.length) P.length =
      .ok ((P.map (fun p => p.1 - roiTop P)).map (fun z : ℤ => (z % 65536).toNat)) := by
  have hvR : ∀ v ∈ (P.map (fun p => p.1 - roiTop P)).map (fun z : ℤ => (z % 65536).toNat),
      v < 65536 := by
    intro v hv
    rw [List.mem_map] at hv
    obtain ⟨z, _, rfl⟩ := hv
    omega
  have hform : roiBytes P N = hdr64Bytes P ++
      (seg2N ((P.map (fun p => p.2 - roiLeft P)).map (fun z : ℤ => (z % 65536).toNat)) ++
      (seg2N ((P.map (fun p => p.1 - roiTop P)).map (fun z : ℤ => (z % 65536).toNat)) ++
      trailerBytes P.length N)) := by
    unfold roiBytes
    rw [seg2Z_eq_seg2N, seg2Z_eq_seg2N]
  rw [hform]
  rw [show 64 + 2 * P.length = (hdr64Bytes P).length + 2 * P.length from by
    rw [hdr64Bytes_length]]
  rw [getN16_shift]
  rw [show 2 * P.length =
    (seg2N ((P.map (fun p => p.2 - roiLeft P)).map (fun z : ℤ => (z % 65536).toNat))).length + 0
    from by simp [seg2N_length]]
  rw [getN16_shift]
  rw [show P.length =
    ((P.map (fun p => p.1 - roiTop P)).map (fun z : ℤ => (z % 65536).toNat)).length
    from by simp]
  exact getN16_seg0 _ _ hvR

/-- Skipping the zeroed first 16 header2 bytes for 32-bit reads. -/
theorem hskip16_32 (X : List Nat) (j : Nat) :
    get32 (natBE 16 0 ++ X) (16 + j) = get32 X j := by
  have h := get32_shift (natBE 16 0) X j
  simpa using h

/-- The name-offset field read of `roiBytes`. -/
theorem roiBytes_nameOff (P : List (ℤ × ℤ)) (N : List Nat) (hn : P.length < 32768) :
    get32 (roiBytes P N) (64 + 4 * P.length + 16) = .ok (116 + 4 * P.length) := by
  rw [roiBytes_form]
  rw [show 64 + 4 * P.length + 16 = (hdr64Bytes P).length + (4 * P.length + 16) from by
    rw [hdr64Bytes_length]; omega]
  rw [get32_shift]
  rw [show 4 * P.length + 16 =
    (seg2N ((P.map (fun p => p.2 - roiLeft P)).map (fun z : ℤ => (z % 65536).toNat))).length +
      (2 * P.length + 16) from by rw [roiBytes_lenC]; omega]
  rw [get32_shift]
  rw [show 2 * P.length + 16 =
    (seg2N ((P.map (fun p => p.1 - roiTop P)).map (fun z : ℤ => (z % 65536).toNat))).length +
      (16 + 0) from by rw [roiBytes_lenR]]
  rw [get32_shift, hskip16_32]
  exact get32_at0 _ _ (by omega)

/-- The name-length field read of `roiBytes`. -/
theorem roiBytes_nameLen (P : List (ℤ × ℤ)) (N : List Nat) (hNlen : N.length < 2 ^ 32) :
    get32 (roiBytes P N) (64 + 4 * P.length + 20) = .ok N.length := by
  rw [roiBytes_form]
  rw [show 64 + 4 * P.length + 20 = (hdr64Bytes P).length + (4 * P.length + 20) from by
    rw [hdr64Bytes_length]; omega]
  rw [get32_shift]
  rw [show 4 * P.length + 20 =
    (seg2N ((P.map (fun p => p.2 - roiLeft P)).map (fun z : ℤ => (z % 65536).toNat))).length +
      (2 * P.length + 20) from by rw [roiBytes_lenC]; omega]
  rw [get32_shift]
  rw [show 2 * P.length + 20 =
    (seg2N ((P.map (fun p => p.1 - roiTop P)).map (fun z : ℤ => (z % 65536).toNat))).length +
      (16 + 4) from by rw [roiBytes_lenR]]
  rw [get32_shift, hskip16_32]
  have hsk : get32 (natBE 4 (116 + 4 * P.length) ++
      (natBE 4 N.length ++ (natBE 28 0 ++ seg2N N))) 4 =
      get32 (natBE 4 N.length ++ (natBE 28 0 ++ seg2N N)) 0 := by
    simpa using get32_shift (natBE 4 (116 + 4 * P.length))
      (natBE 4 N.length ++ (natBE 28 0 ++ seg2N N)) 0
  rw [hsk]
  exact get32_at0 _ _ hNlen

/-- The name payload read of `roiBytes`. -/
theorem roiBytes_name (P : List (ℤ × ℤ)) (N : List Nat) (hNc : ∀ c ∈ N, c < 65536) :
    getN16 (roiBytes P N) (116 + 4 * P.length) N.length = .ok N := by
  rw [roiBytes_form]
  rw [show 116 + 4 * P.length = (hdr64Bytes P).length + (4 * P.length + 52) from by
    rw [hdr64Bytes_length]; omega]
  rw [getN16_shift]
  rw [show 4 * P.length + 52 =
    (seg2N ((P.map (fun p => p.2 - roiLeft P)).map (fun z : ℤ => (z % 65536).toNat))).length +
      (2 * P.length + 52) from by rw [roiBytes_lenC]; omega]
  rw [getN16_shift]
  rw [show 2 * P.length + 52 =
    (seg2N ((P.map (fun p => p.1 - roiTop P)).map (fun z : ℤ => (z % 65536).toNat))).length +
      (16 + 36) from by rw [roiBytes_lenR]]
  rw [getN16_shift]
  have hs16 : ∀ (X : List Nat) (j : Nat) (c : Nat),
      getN16 (natBE 16 0 ++ X) (16 + j) c = getN16 X j c := by
    intro X j c
    have h := getN16_shift (natBE 16 0) X c j
    simpa using h
  rw [hs16]
  have hsk1 : ∀ (K : Nat) (X : List Nat) (c : Nat),
      getN16 (natBE 4 K ++ X) 36 c = getN16 X 32 c := by
    intro K X c
    simpa using getN16_shift (natBE 4 K) X c 32
  rw [hsk1]
  have hsk2 : getN16 (natBE 4 N.length ++ (natBE 28 0 ++ seg2N N)) 32 N.length =
      getN16 (natBE 28 0 ++ seg2N N) 28 N.length := by
    simpa using getN16_shift (natBE 4 N.length) (natBE 28 0 ++ seg2N N) N.length 28
  rw [hsk2]
  have hsk3 : getN16 (natBE 28 0 ++ seg2N N) 28 N.length =
      getN16 (seg2N N) 0 N.length := by
    simpa using getN16_shift (natBE 28 0) (seg2N N) N.length 0
  rw [hsk3]
  exact getN16_seg00 N hNc

theorem read_roiBytes (P : List (ℤ × ℤ)) (N : List Nat)
    (hco : ∀ p ∈ P, (-32768 ≤ p.1 ∧ p.1 < 32768) ∧ (-32768 ≤ p.2 ∧ p.2 < 32768))
    (hoffC : ∀ p ∈ P, 0 ≤ p.2 - roiLeft P ∧ p.2 - roiLeft P < 32768)
    (hoffR : ∀ p ∈ P, 0 ≤ p.1 - roiTop P ∧ p.1 - roiTop P < 32768)
    (hn : P.length < 32768) (hNc : ∀ c ∈ N, c < 65536)
    (hNlen : N.length < 2 ^ 32) :
    read_roi (roiBytes P N) = .ok (.ints P) := by
  have e4 : get16 (roiBytes P N) 4 = .ok 217 := rfl
  have e6 : get8 (roiBytes P N) 6 = .ok 0 := rfl
  have e7 : get8 (roiBytes P N) 7 = .ok 0 := rfl
  have e8 : get16 (roiBytes P N) 8 = .ok ((roiTop P % 65536).toNat) :=
    get16_val _ _ _ (by omega) rfl
  have e10 : get16 (roiBytes P N) 10 = .ok ((roiLeft P % 65536).toNat) :=
    get16_val _ _ _ (by omega) rfl
  have e12 : get16 (roiBytes P N) 12 = .ok ((roiBottom P % 65536).toNat) :=
    get16_val _ _ _ (by omega) rfl
  have e14 : get16 (roiBytes P N) 14 = .ok ((roiRight P % 65536).toNat) :=
    get16_val _ _ _ (by omega) rfl
  have e16 : get16 (roiBytes P N) 16 = .ok P.length :=
    get16_val _ _ _ (by omega) rfl
  have e18 : getfloat (roiBytes P N) 18 = .ok (decodeF32 0) := rfl
  have e22 : getfloat (roiBytes P N) 22 = .ok (decodeF32 0) := rfl
  have e26 : getfloat (roiBytes P N) 26 = .ok (decodeF32 0) := rfl
  have e30 : getfloat (roiBytes P N) 30 = .ok (decodeF32 0) := rfl
  have e34 : get16 (roiBytes P N) 34 = .ok 0 := rfl
  have e36 : get32 (roiBytes P N) 36 = .ok 0 := rfl
  have e40 : get32 (roiBytes P N) 40 = .ok 0 := rfl
  have e44 : get32 (roiBytes P N) 44 = .ok 0 := rfl
  have e48 : get16 (roiBytes P N) 48 = .ok 0 := rfl
  have e50 : get16 (roiBytes P N) 50 = .ok 0 := rfl
  have e52 : get8 (roiBytes P N) 52 = .ok 0 := rfl
  have e53 : get8 (roiBytes P N) 53 = .ok 0 := rfl
  have e54 : get16 (roiBytes P N) 54 = .ok 0 := rfl
  have e56 : get32 (roiBytes P N) 56 = .ok 1 := rfl
  have e60 : get32 (roiBytes P N) 60 = .ok (64 + 4 * P.length) :=
    get32_val _ _ _ (by omega) rfl
  have htake : (roiBytes P N).take 4 = [73, 111, 117, 116] := rfl
  rw [read_roi, if_pos htake]
  rw [e4, exceptBind_ok, e6, exceptBind_ok, e7, exceptBind_ok]
  rw [e8, exceptBind_ok, e10, exceptBind_ok, e12, exceptBind_ok, e14, exceptBind_ok]
  rw [e16, exceptBind_ok]
  rw [e18, exceptBind_ok, e22, exceptBind_ok, e26, exceptBind_ok, e30, exceptBind_ok]
  rw [e34, exceptBind_ok, e36, exceptBind_ok, e40, exceptBind_ok, e44, exceptBind_ok]
  rw [e48, exceptBind_ok, e50, exceptBind_ok, e52, exceptBind_ok, e53, exceptBind_ok]
  rw [e54, exceptBind_ok, e56, exceptBind_ok, e60, exceptBind_ok]
  have hsp : subPixelCalc 0 217 = false := rfl
  simp only [hsp]
  rw [if_pos (by norm_num : ((0:ℕ) = 7 ∨ (0:ℕ) = 8 ∨ True ∨ (0:ℕ) = 1 ∨ (0:ℕ) = 10 ∨ (0:ℕ) = 2))]
  rw [if_neg (by norm_num : ¬((0:ℕ) ≠ 0))]
  rw [if_neg (by norm_num : ¬((0:ℕ) = 2))]
  rw [if_neg (by norm_num : ¬((0:ℕ) = 1))]
  rw [if_neg (by norm_num : ¬(false = true))]
  have hcols := roiBytes_cols P N
  have hrows := roiBytes_rows P N
  have hNO := roiBytes_nameOff P N hn
  have hNL := roiBytes_nameLen P N hNlen
  have hname := roiBytes_name P N hNc
  rw [hcols, exceptBind_ok, hrows, exceptBind_ok, hNO, exceptBind_ok,
    hNL, exceptBind_ok, hname, exceptBind_ok]
  rw [List.map_map, List.map_map, List.zip_map', List.map_map]
  apply congrArg
  apply congrArg
  apply map_eq_self_of
  intro p hp
  have hc1 := (hco p hp).1
  have hc2 := (hco p hp).2
  have h1 := readVal (p.1 - roiTop P) (roiTop P) (hoffR p hp).1 (hoffR p hp).2
    (by omega) (by omega)
  have h2 := readVal (p.2 - roiLeft P) (roiLeft P) (hoffC p hp).1 (hoffC p hp).2
    (by omega) (by omega)
  show (wrap16 (toInt16 (((p.1 - roiTop P) % 65536).toNat) + ((roiTop P % 65536).toNat : ℤ)),
    wrap16 (toInt16 (((p.2 - roiLeft P) % 65536).toNat) + ((roiLeft P % 65536).toNat : ℤ))) = p
  rw [h1, h2]
  have : p.1 - roiTop P + roiTop P = p.1 := by omega
  rw [this]
  have : p.2 - roiLeft P + roiLeft P = p.2 := by omega
  rw [this]



/-! ## Round-trip assembly -/

theorem roiTop_mem (p₀ : ℤ × ℤ) (rest : List (ℤ × ℤ)) :
    roiTop (p₀ :: rest) ∈ (p₀ :: rest).map Prod.fst := by
  simp only [roiTop, List.map_cons]
  exact listMin_mem _ _

theorem roiLeft_mem (p₀ : ℤ × ℤ) (rest : List (ℤ × ℤ)) :
    roiLeft (p₀ :: rest) ∈ (p₀ :: rest).map Prod.snd := by
  simp only [roiLeft, List.map_cons]
  exact listMin_mem _ _

theorem roiBottom_mem (p₀ : ℤ × ℤ) (rest : List (ℤ × ℤ)) :
    roiBottom (p₀ :: rest) ∈ (p₀ :: rest).map Prod.fst := by
  simp only [roiBottom, List.map_cons]
  exact listMax_mem _ _

theorem roiRight_mem (p₀ : ℤ × ℤ) (rest : List (ℤ × ℤ)) :
    roiRight (p₀ :: rest) ∈ (p₀ :: rest).map Prod.snd := by
  simp only [roiRight, List.map_cons]
  exact listMax_mem _ _

theorem roiTop_le (P : List (ℤ × ℤ)) (p : ℤ × ℤ) (hp : p ∈ P) : roiTop P ≤ p.1 := by
  obtain ⟨q, rest, rfl⟩ := List.exists_cons_of_ne_nil (List.ne_nil_of_mem hp)
  simp only [roiTop, List.map_cons]
  exact listMin_le _ _ p.1 (by rw [← List.map_cons]; exact List.mem_map_of_mem _ hp)

theorem roiLeft_le (P : List (ℤ × ℤ)) (p : ℤ × ℤ) (hp : p ∈ P) : roiLeft P ≤ p.2 := by
  obtain ⟨q, rest, rfl⟩ := List.exists_cons_of_ne_nil (List.ne_nil_of_mem hp)
  simp only [roiLeft, List.map_cons]
  exact listMin_le _ _ p.2 (by rw [← List.map_cons]; exact List.mem_map_of_mem _ hp)

theorem le_roiBottom (P : List (ℤ × ℤ)) (p : ℤ × ℤ) (hp : p ∈ P) : p.1 ≤ roiBottom P := by
  obtain ⟨q, rest, rfl⟩ := List.exists_cons_of_ne_nil (List.ne_nil_of_mem hp)
  simp only [roiBottom, List.map_cons]
  exact le_listMax _ _ p.1 (by rw [← List.map_cons]; exact List.mem_map_of_mem _ hp)

theorem le_roiRight (P : List (ℤ × ℤ)) (p : ℤ × ℤ) (hp : p ∈ P) : p.2 ≤ roiRight P := by
  obtain ⟨q, rest, rfl⟩ := List.exists_cons_of_ne_nil (List.ne_nil_of_mem hp)
  simp only [roiRight, List.map_cons]
  exact le_listMax _ _ p.2 (by rw [← List.map_cons]; exact List.mem_map_of_mem _ hp)

/-- The polygon round trip: under the int16 constraints, `write_roi`
produces exactly `roiBytes P N` and `read_roi` recovers `P`. -/
theorem roundtrip_aux (P : List (ℤ × ℤ)) (N : List Nat) (hne : P ≠ [])
    (hco : ∀ p ∈ P, (-32768 ≤ p.1 ∧ p.1 < 32768) ∧ (-32768 ≤ p.2 ∧ p.2 < 32768))
    (hn : P.length < 32768) (hNc : ∀ c ∈ N, c < 65536) (hNlen : N.length < 2 ^ 32)
    (hspanR : roiBottom P - roiTop P ≤ 32767)
    (hspanC : roiRight P - roiLeft P ≤ 32767) :
    write_roi P (some N) 0 = .ok (roiBytes P N) ∧
      read_roi (roiBytes P N) = .ok (.ints P) := by
  obtain ⟨p₀, rest, rfl⟩ := List.exists_cons_of_ne_nil hne
  have hbnd : ∀ v ∈ (p₀ :: rest).map Prod.fst, -32768 ≤ v ∧ v < 32768 := by
    intro v hv
    rw [List.mem_map] at hv
    obtain ⟨q, hq, rfl⟩ := hv
    exact (hco q hq).1
  have hbnd2 : ∀ v ∈ (p₀ :: rest).map Prod.snd, -32768 ≤ v ∧ v < 32768 := by
    intro v hv
    rw [List.mem_map] at hv
    obtain ⟨q, hq, rfl⟩ := hv
    exact (hco q hq).2
  have htop := hbnd _ (roiTop_mem p₀ rest)
  have hleft := hbnd2 _ (roiLeft_mem p₀ rest)
  have hbottom := hbnd _ (roiBottom_mem p₀ rest)
  have hright := hbnd2 _ (roiRight_mem p₀ rest)
  have hoffR : ∀ p ∈ p₀ :: rest,
      0 ≤ p.1 - roiTop (p₀ :: rest) ∧ p.1 - roiTop (p₀ :: rest) < 32768 := by
    intro p hp
    have h1 := roiTop_le _ p hp
    have h2 := le_roiBottom _ p hp
    omega
  have hoffC : ∀ p ∈ p₀ :: rest,
      0 ≤ p.2 - roiLeft (p₀ :: rest) ∧ p.2 - roiLeft (p₀ :: rest) < 32768 := by
    intro p hp
    have h1 := roiLeft_le _ p hp
    have h2 := le_roiRight _ p hp
    omega
  constructor
  · apply write_roi_shape _ _ hne htop hleft hbottom hright
    · intro p hp
      have := hoffC p hp
      omega
    · intro p hp
      have := hoffR p hp
      omega
    · exact hn
    · exact hNc
    · exact hNlen
  · exact read_roiBytes _ _ hco hoffC hoffR hn hNc hNlen

/-! ## Claims -/

/-- C1 (corrected): encoding a non-empty polygon point array `P` with a
name `N` and decoding the resulting bytes returns exactly `P`, provided
additionally that the point count and both bounding-box spans fit in a
signed 16-bit field and the name is a list of fewer than `2^32` BMP code
points.  (The unrestricted claim is refuted by
`C1_roundtrip_counterexample`.) -/
theorem C1_roundtrip (P : List (ℤ × ℤ)) (N : List Nat) (hne : P ≠ [])
    (hco : ∀ p ∈ P, (-32768 ≤ p.1 ∧ p.1 < 32768) ∧ (-32768 ≤ p.2 ∧ p.2 < 32768))
    (hNne : N ≠ []) (hn : P.length < 32768) (hNc : ∀ c ∈ N, c < 65536)
    (hNlen : N.length < 2 ^ 32)
    (hspanR : roiBottom P - roiTop P ≤ 32767)
    (hspanC : roiRight P - roiLeft P ≤ 32767) :
    ∃ B, write_roi P (some N) 0 = .ok B ∧ read_roi B = .ok (.ints P) := by
  obtain ⟨hw, hr⟩ := roundtrip_aux P N hne hco hn hNc hNlen hspanR hspanC
  exact ⟨roiBytes P N, hw, hr⟩

/-- C1 witness: the round trip at a concrete three-point polygon. -/
theorem C1_roundtrip_witness :
    ∃ B, write_roi [((5:ℤ), (4:ℤ)), (10, 8), (1, 2)] (some [97, 98]) 0 = .ok B ∧
      read_roi B = .ok (.ints [((5:ℤ), (4:ℤ)), (10, 8), (1, 2)]) :=
  C1_roundtrip [((5:ℤ), (4:ℤ)), (10, 8), (1, 2)] [97, 98] (by decide)
    (by decide) (by decide) (by decide) (by decide) (by decide)
    (by decide) (by decide)

/-- C1 counterexample: a point array whose row span exceeds 32767 makes
`write_roi` raise `OverflowError` while writing the wrapped row offset,
so the round trip claimed for every int16-representable array fails. -/
theorem C1_roundtrip_counterexample :
    ¬ ∃ B, write_roi [((-20000:ℤ), (0:ℤ)), (20000, 0)] (some [97]) 0 = .ok B ∧
      read_roi B = .ok (.ints [((-20000:ℤ), (0:ℤ)), (20000, 0)]) := by
  intro ⟨B, hB, _⟩
  have : write_roi [((-20000:ℤ), (0:ℤ)), (20000, 0)] (some [97]) 0 =
      .error (.overflow,
        [73, 111, 117, 116, 0, 217, 0, 0, 177, 224, 0, 0, 78, 32, 0, 0, 0, 2,
         0, 0, 0, 0, 0, 0, 0, 0, 0, 0, 0, 0, 0, 0, 0, 0, 0, 0, 0, 0, 0, 0,
         0, 0, 0, 0, 0, 0, 0, 0, 0, 0, 0, 0, 0, 0, 0, 0, 0, 0, 0, 1,
         0, 0, 0, 72, 0, 0, 0, 0, 0, 0]) := rfl
  rw [this] at hB
  exact Except.noConfusion hB

/-- C2 (corrected): decoding the bytes produced by encoding `(P, N)`
parses a name equal to `N` from the stream (`readRoiName`), but
`read_roi` returns only the point array — the name is read and discarded,
so it is not part of the value returned to the caller (see
`C2_name_counterexample`). -/
theorem C2_name_parsed (P : List (ℤ × ℤ)) (N : List Nat) (hne : P ≠ [])
    (hco : ∀ p ∈ P, (-32768 ≤ p.1 ∧ p.1 < 32768) ∧ (-32768 ≤ p.2 ∧ p.2 < 32768))
    (hn : P.length < 32768) (hNc : ∀ c ∈ N, c < 65536) (hNlen : N.length < 2 ^ 32)
    (hspanR : roiBottom P - roiTop P ≤ 32767)
    (hspanC : roiRight P - roiLeft P ≤ 32767) :
    write_roi P (some N) 0 = .ok (roiBytes P N) ∧
      readRoiName (roiBytes P N) = .ok N := by
  refine ⟨(roundtrip_aux P N hne hco hn hNc hNlen hspanR hspanC).1, ?_⟩
  have e60 : get32 (roiBytes P N) 60 = .ok (64 + 4 * P.length) :=
    get32_val _ _ _ (by omega) rfl
  rw [readRoiName, e60, exceptBind_ok, roiBytes_nameOff P N hn, exceptBind_ok,
    roiBytes_nameLen P N hNlen, exceptBind_ok]
  exact roiBytes_name P N hNc

/-- C2 witness: the parsed name at a concrete polygon and name. -/
theorem C2_name_parsed_witness :
    write_roi [((5:ℤ), (4:ℤ)), (10, 8), (1, 2)] (some [97, 98]) 0 =
      .ok (roiBytes [((5:ℤ), (4:ℤ)), (10, 8), (1, 2)] [97, 98]) ∧
      readRoiName (roiBytes [((5:ℤ), (4:ℤ)), (10, 8), (1, 2)] [97, 98]) =
        .ok [97, 98] :=
  C2_name_parsed [((5:ℤ), (4:ℤ)), (10, 8), (1, 2)] [97, 98] (by decide)
    (by decide) (by decide) (by decide) (by decide) (by decide) (by decide)

set_option maxRecDepth 8192 in
/-- C2 counterexample: records that differ only in their name decode to
the same value, so `read_roi` cannot return the ROI's name to the
caller. -/
theorem C2_name_counterexample :
    (write_roi [((0:ℤ), (0:ℤ))] (some [97]) 0).toOption.bind
        (fun b => (read_roi b).toOption) = some (.ints [((0:ℤ), (0:ℤ))]) ∧
      (write_roi [((0:ℤ), (0:ℤ))] (some [98]) 0).toOption.bind
        (fun b => (read_roi b).toOption) = some (.ints [((0:ℤ), (0:ℤ))]) ∧
      ([97] : List Nat) ≠ [98] := by
  refine ⟨rfl, rfl, by decide⟩

/-- C6 (corrected): `write_roi` fails with the missing-name error exactly
when the name is absent (`None`); an empty-string name is accepted (see
`C6_empty_name_counterexample`), producing a record with name length 0. -/
theorem C6_missing_name (pts : List (ℤ × ℤ)) (rt : Nat) (h : rt = 0 ∨ rt = 2) :
    write_roi pts none rt = .error (.missingName, []) := by
  rcases h with rfl | rfl <;> rfl

/-- C6 witness: the missing-name failure at a concrete call. -/
theorem C6_missing_name_witness :
    write_roi [((0:ℤ), (0:ℤ))] none 0 = .error (.missingName, []) :=
  C6_missing_name [((0:ℤ), (0:ℤ))] 0 (Or.inl rfl)

set_option maxRecDepth 8192 in
/-- C6 counterexample: an empty-string name does NOT make `write_roi`
fail — it produces output bytes, refuting the claim that encode fails
whenever the name is empty or absent. -/
theorem C6_empty_name_counterexample :
    write_roi [((0:ℤ), (0:ℤ))] (some []) 0 = .ok (roiBytes [((0:ℤ), (0:ℤ))] []) := rfl

/-- C7 (confirmed): on any stream whose first four bytes are not the
`Iout` magic, `read_roi` raises the format error; the result is fully
determined by those four bytes, so no further header field is read. -/
theorem C7_bad_magic (d : List Nat) (h : d.take 4 ≠ [73, 111, 117, 116]) :
    read_roi d = .error .badMagic := by
  rw [read_roi, if_neg h]

/-- C7 witness: the empty stream. -/
theorem C7_bad_magic_witness : read_roi [] = .error .badMagic :=
  C7_bad_magic [] (by decide)

/-! ## Encoder overflow analysis (C10) -/

/-- The signed 16-bit range of `int.to_bytes(2, signed=True)`. -/
def inI16 (z : ℤ) : Prop := -32768 ≤ z ∧ z < 32768

instance (z : ℤ) : Decidable (inI16 z) := by
  unfold inI16
  infer_instance

theorem write_bytes_err2s (num : ℤ) (buf : List Nat)
    (h : ¬ inI16 num) :
    write_bytes num 2 none buf = .error (.overflow, buf) := by
  simp only [write_bytes, Option.getD, inI16] at h ⊢
  norm_num
  omega

theorem writeCoords_err (vals : List ℤ) (h : ∃ v ∈ vals, ¬ inI16 v) :
    ∀ buf, ∃ buf2, writeCoords vals buf = .error (.overflow, buf2) := by
  induction vals with
  | nil => simp at h
  | cons v vs ih =>
    intro buf
    by_cases hv : inI16 v
    · rw [writeCoords, write_bytes_ok2s v buf hv.1 hv.2]
      rw [exceptBind_ok]
      apply ih
      obtain ⟨w, hw, hbad⟩ := h
      rcases List.mem_cons.mp hw with rfl | hw2
      · exact absurd hv hbad
      · exact ⟨w, hw2, hbad⟩
    · rw [writeCoords, write_bytes_err2s v buf hv]
      exact ⟨buf, rfl⟩

/-- When the bounding box fits but the point count does not, the
`n_coordinates` write fails with exactly the 16 preceding bytes
written. -/
theorem write_roi_err_at_n (pts : List (ℤ × ℤ)) (nm : List Nat) (hne : pts ≠ [])
    (ht : inI16 (roiTop pts)) (hl : inI16 (roiLeft pts))
    (hb : inI16 (roiBottom pts)) (hr : inI16 (roiRight pts))
    (hbig : 32768 ≤ pts.length) :
    write_roi pts (some nm) 0 = .error (.overflow,
      [73, 111, 117, 116] ++ sb2 217 ++ natBE 1 0 ++ natBE 1 0 ++
      sb2 (roiTop pts) ++ sb2 (roiLeft pts) ++ sb2 (roiBottom pts) ++
      sb2 (roiRight pts)) := by
  simp only [roiTop, roiLeft, roiBottom, roiRight] at ht hl hb hr ⊢
  rw [write_roi]
  simp only [if_neg (by norm_num : ¬((0 : Nat) ≠ 0 ∧ (0 : Nat) ≠ 2)), if_neg hne,
    if_true, if_pos rfl]
  rw [write_bytes_ok2s 217 _ (by norm_num) (by norm_num)]
  rw [exceptBind_ok]
  rw [write_bytes_okuN 0 1 _ (by norm_num) (by norm_num)]
  rw [exceptBind_ok]
  rw [write_bytes_oku 0 1 _ (by norm_num) (by norm_num) (by norm_num)]
  rw [exceptBind_ok]
  rw [write_bytes_ok2s _ _ ht.1 ht.2]
  rw [exceptBind_ok]
  rw [write_bytes_ok2s _ _ hl.1 hl.2]
  rw [exceptBind_ok]
  rw [write_bytes_ok2s _ _ hb.1 hb.2]
  rw [exceptBind_ok]
  rw [write_bytes_ok2s _ _ hr.1 hr.2]
  rw [exceptBind_ok]
  rw [write_bytes_err2s _ _ (by
    simp only [inI16]
    push_cast
    omega)]
  rw [exceptBind_error]
  simp [List.append_assoc]

/-- Any out-of-range signed-2-byte field makes `write_roi` fail with an
overflow error. -/
theorem write_roi_err_any (pts : List (ℤ × ℤ)) (nm : List Nat) (hne : pts ≠ [])
    (hD : 32768 ≤ pts.length ∨ ¬ inI16 (roiTop pts) ∨ ¬ inI16 (roiLeft pts) ∨
      ¬ inI16 (roiBottom pts) ∨ ¬ inI16 (roiRight pts) ∨
      ∃ p ∈ pts, ¬ inI16 (p.2 - roiLeft pts) ∨ ¬ inI16 (p.1 - roiTop pts)) :
    ∃ buf, write_roi pts (some nm) 0 = .error (.overflow, buf) := by
  rw [write_roi]
  simp only [if_neg (by norm_num : ¬((0 : Nat) ≠ 0 ∧ (0 : Nat) ≠ 2)), if_neg hne,
    if_true, if_pos rfl]
  rw [write_bytes_ok2s 217 _ (by norm_num) (by norm_num)]
  rw [exceptBind_ok]
  rw [write_bytes_okuN 0 1 _ (by norm_num) (by norm_num)]
  rw [exceptBind_ok]
  rw [write_bytes_oku 0 1 _ (by norm_num) (by norm_num) (by norm_num)]
  rw [exceptBind_ok]
  simp only [roiTop, roiLeft, roiBottom, roiRight] at hD
  by_cases ht : inI16 (listMin (List.map Prod.fst pts))
  case neg =>
    rw [write_bytes_err2s _ _ ht, exceptBind_error]
    exact ⟨_, rfl⟩
  rw [write_bytes_ok2s _ _ ht.1 ht.2, exceptBind_ok]
  by_cases hl : inI16 (listMin (List.map Prod.snd pts))
  case neg =>
    rw [write_bytes_err2s _ _ hl, exceptBind_error]
    exact ⟨_, rfl⟩
  rw [write_bytes_ok2s _ _ hl.1 hl.2, exceptBind_ok]
  by_cases hb : inI16 (listMax (List.map Prod.fst pts))
  case neg =>
    rw [write_bytes_err2s _ _ hb, exceptBind_error]
    exact ⟨_, rfl⟩
  rw [write_bytes_ok2s _ _ hb.1 hb.2, exceptBind_ok]
  by_cases hr : inI16 (listMax (List.map Prod.snd pts))
  case neg =>
    rw [write_bytes_err2s _ _ hr, exceptBind_error]
    exact ⟨_, rfl⟩
  rw [write_bytes_ok2s _ _ hr.1 hr.2, exceptBind_ok]
  by_cases hn2 : pts.length < 32768
  case neg =>
    rw [write_bytes_err2s _ _ (by
      simp only [inI16]
      push_cast
      omega), exceptBind_error]
    exact ⟨_, rfl⟩
  rw [write_bytes_ok2sN pts.length _ hn2, exceptBind_ok]
  rw [write_bytes_oku 0 4 _ (by norm_num) (by norm_num) (by norm_num), exceptBind_ok]
  rw [write_bytes_oku 0 4 _ (by norm_num) (by norm_num) (by norm_num), exceptBind_ok]
  rw [write_bytes_oku 0 4 _ (by norm_num) (by norm_num) (by norm_num), exceptBind_ok]
  rw [write_bytes_oku 0 4 _ (by norm_num) (by norm_num) (by norm_num), exceptBind_ok]
  rw [write_bytes_ok2s 0 _ (by norm_num) (by norm_num), exceptBind_ok]
  rw [write_bytes_oku 0 4 _ (by norm_num) (by norm_num) (by norm_num), exceptBind_ok]
  rw [write_bytes_oku 0 4 _ (by norm_num) (by norm_num) (by norm_num), exceptBind_ok]
  rw [write_bytes_oku 0 4 _ (by norm_num) (by norm_num) (by norm_num), exceptBind_ok]
  rw [write_bytes_ok2s 0 _ (by norm_num) (by norm_num), exceptBind_ok]
  rw [write_bytes_ok2s 0 _ (by norm_num) (by norm_num), exceptBind_ok]
  rw [write_bytes_oku 0 1 _ (by norm_num) (by norm_num) (by norm_num), exceptBind_ok]
  rw [write_bytes_oku 0 1 _ (by norm_num) (by norm_num) (by norm_num), exceptBind_ok]
  rw [write_bytes_ok2s 0 _ (by norm_num) (by norm_num), exceptBind_ok]
  rw [write_bytes_oku 1 4 _ (by norm_num) (by norm_num) (by norm_num), exceptBind_ok]
  have hsb2len : ∀ z : ℤ, (sb2 z).length = 2 := fun z => by simp [sb2]
  simp only [List.length_append, List.length_cons, List.length_nil, natBE_length, hsb2len]
  norm_num
  have h2off : (56 + 2 * (pts.length : ℤ) * 2 + 8) = ((64 + 4 * pts.length : ℕ) : ℤ) := by
    push_cast
    ring
  rw [h2off, write_bytes_okuN (64 + 4 * pts.length) 4 _ (by norm_num) (by omega)]
  rw [exceptBind_ok]
  have hcompS : (Prod.snd ∘ fun p : ℤ × ℤ =>
      (p.1 - listMin (List.map Prod.fst pts), p.2 - listMin (List.map Prod.snd pts))) =
      (fun p : ℤ × ℤ => p.2 - listMin (List.map Prod.snd pts)) := rfl
  have hcompF : (Prod.fst ∘ fun p : ℤ × ℤ =>
      (p.1 - listMin (List.map Prod.fst pts), p.2 - listMin (List.map Prod.snd pts))) =
      (fun p : ℤ × ℤ => p.1 - listMin (List.map Prod.fst pts)) := rfl
  rw [hcompS, hcompF]
  have hbadPts : ∃ p ∈ pts, ¬ inI16 (p.2 - listMin (List.map Prod.snd pts)) ∨
      ¬ inI16 (p.1 - listMin (List.map Prod.fst pts)) := by
    rcases hD with h | h | h | h | h | h
    · omega
    · exact absurd ht h
    · exact absurd hl h
    · exact absurd hb h
    · exact absurd hr h
    · exact h
  by_cases hcAll : ∀ v ∈ pts.map (fun p => p.2 - listMin (List.map Prod.snd pts)),
      -32768 ≤ v ∧ v < 32768
  · rw [writeCoords_ok _ _ hcAll, exceptBind_ok]
    have hbadR : ∃ v ∈ pts.map (fun p => p.1 - listMin (List.map Prod.fst pts)),
        ¬ inI16 v := by
      obtain ⟨p, hp, hbad⟩ := hbadPts
      rcases hbad with hbad | hbad
      · exact absurd (by simpa [inI16] using hcAll _ (List.mem_map_of_mem _ hp)) hbad
      · exact ⟨p.1 - listMin (List.map Prod.fst pts), List.mem_map_of_mem _ hp, hbad⟩
    obtain ⟨buf2, he⟩ := writeCoords_err _ hbadR _
    rw [he, exceptBind_error]
    exact ⟨buf2, rfl⟩
  · have hbadC : ∃ v ∈ pts.map (fun p => p.2 - listMin (List.map Prod.snd pts)),
        ¬ inI16 v := by
      push_neg at hcAll
      obtain ⟨v, hv, hbad⟩ := hcAll
      exact ⟨v, hv, by simpa [inI16] using hbad⟩
    obtain ⟨buf2, he⟩ := writeCoords_err _ hbadC _
    rw [he, exceptBind_error]
    exact ⟨buf2, rfl⟩

/-- C10 (confirmed): `write_roi` writes `n_coordinates` and every
bounding-box and coordinate-offset value as signed big-endian 2-byte
fields, so polygon encoding raises an overflow error whenever the point
count is 32768 or more or any such value falls outside
`[-32768, 32767]`; when the bounding box fits and the count is the first
offender, the output stops at the 16 bytes preceding the
`n_coordinates` field. -/
theorem C10_write_overflow (pts : List (ℤ × ℤ)) (nm : List Nat) (hne : pts ≠ []) :
    ((32768 ≤ pts.length ∨ ¬ inI16 (roiTop pts) ∨ ¬ inI16 (roiLeft pts) ∨
      ¬ inI16 (roiBottom pts) ∨ ¬ inI16 (roiRight pts) ∨
      ∃ p ∈ pts, ¬ inI16 (p.2 - roiLeft pts) ∨ ¬ inI16 (p.1 - roiTop pts)) →
      ∃ buf, write_roi pts (some nm) 0 = .error (.overflow, buf)) ∧
    (inI16 (roiTop pts) → inI16 (roiLeft pts) → inI16 (roiBottom pts) →
      inI16 (roiRight pts) → 32768 ≤ pts.length →
      write_roi pts (some nm) 0 = .error (.overflow,
        [73, 111, 117, 116] ++ sb2 217 ++ natBE 1 0 ++ natBE 1 0 ++
        sb2 (roiTop pts) ++ sb2 (roiLeft pts) ++ sb2 (roiBottom pts) ++
        sb2 (roiRight pts))) :=
  ⟨fun hD => write_roi_err_any pts nm hne hD,
   fun ht hl hb hr hbig => write_roi_err_at_n pts nm hne ht hl hb hr hbig⟩

theorem foldl_min_replicate (k : Nat) (a : ℤ) :
    (List.replicate k a).foldl min a = a := by
  induction k with
  | zero => rfl
  | succ n ih => simpa [List.replicate_succ, min_self] using ih

theorem foldl_max_replicate (k : Nat) (a : ℤ) :
    (List.replicate k a).foldl max a = a := by
  induction k with
  | zero => rfl
  | succ n ih => simpa [List.replicate_succ, max_self] using ih

/-- C10 witness: 32768 zero points overflow the count field after
exactly 16 bytes of output. -/
theorem C10_write_overflow_witness :
    write_roi (List.replicate 32768 ((0:ℤ), (0:ℤ))) (some [97]) 0 =
      .error (.overflow,
        [73, 111, 117, 116] ++ sb2 217 ++ natBE 1 0 ++ natBE 1 0 ++
        sb2 0 ++ sb2 0 ++ sb2 0 ++ sb2 0) := by
  have hz : ∀ f : ℤ × ℤ → ℤ, f ((0:ℤ), (0:ℤ)) = 0 →
      listMin (List.map f (List.replicate 32768 ((0:ℤ), (0:ℤ)))) = 0 := by
    intro f hf
    rw [List.map_replicate, hf]
    show listMin (List.replicate 32768 (0:ℤ)) = 0
    rw [show List.replicate 32768 (0:ℤ) = 0 :: List.replicate 32767 0 from rfl]
    simp only [listMin]
    exact foldl_min_replicate 32767 0
  have hzM : ∀ f : ℤ × ℤ → ℤ, f ((0:ℤ), (0:ℤ)) = 0 →
      listMax (List.map f (List.replicate 32768 ((0:ℤ), (0:ℤ)))) = 0 := by
    intro f hf
    rw [List.map_replicate, hf]
    show listMax (List.replicate 32768 (0:ℤ)) = 0
    rw [show List.replicate 32768 (0:ℤ) = 0 :: List.replicate 32767 0 from rfl]
    simp only [listMax]
    exact foldl_max_replicate 32767 0
  have ht : roiTop (List.replicate 32768 ((0:ℤ), (0:ℤ))) = 0 := hz Prod.fst rfl
  have hl : roiLeft (List.replicate 32768 ((0:ℤ), (0:ℤ))) = 0 := hz Prod.snd rfl
  have hb : roiBottom (List.replicate 32768 ((0:ℤ), (0:ℤ))) = 0 := hzM Prod.fst rfl
  have hr : roiRight (List.replicate 32768 ((0:ℤ), (0:ℤ))) = 0 := hzM Prod.snd rfl
  have hnn : List.replicate 32768 ((0:ℤ), (0:ℤ)) ≠ [] := by
    rw [show (32768:ℕ) = 32767 + 1 from rfl, List.replicate_succ]
    exact List.cons_ne_nil _ _
  have hlen : 32768 ≤ (List.replicate 32768 ((0:ℤ), (0:ℤ))).length := by
    rw [List.length_replicate]
  have h := (C10_write_overflow (List.replicate 32768 ((0:ℤ), (0:ℤ))) [97] hnn).2
    (by rw [ht]; exact ⟨by norm_num, by norm_num⟩)
    (by rw [hl]; exact ⟨by norm_num, by norm_num⟩)
    (by rw [hb]; exact ⟨by norm_num, by norm_num⟩)
    (by rw [hr]; exact ⟨by norm_num, by norm_num⟩)
    hlen
  rw [h, ht, hl, hb, hr]

/-! ## Sub-pixel gating (C3) -/

/-- The integer decode path as the claim words it: coordinates are read
as 16-bit fields and `left`/`top` are added (in int16 arithmetic) to
every column/row value. -/
def claimIntPath (d : List Nat) : Except RErr (List (ℤ × ℤ)) := do
  let top ← get16 d 8
  let left ← get16 d 10
  let n ← get16 d 16
  let cols ← getN16 d 64 n
  let rows ← getN16 d (64 + 2 * n) n
  pure ((rows.zip cols).map fun rc =>
    (wrap16 (toInt16 rc.1 + (top : ℤ)), wrap16 (toInt16 rc.2 + (left : ℤ))))

/-- C3 (confirmed): `sub_pixel` is true iff bit 128 of the options field
is set and the version is at least 222; and a polygon-family record with
the bit set but version below 222 decodes on the integer path — 16-bit
coordinates with `left`/`top` added. -/
theorem C3_subpixel_gating :
    (∀ options version : Nat,
        subPixelCalc options version = true ↔
          (options &&& 128 ≠ 0 ∧ 222 ≤ version)) ∧
    (∀ (d : List Nat) (rt ver opts : Nat) (r : RoiResult),
        get8 d 6 = .ok rt → (rt = 0 ∨ rt = 7 ∨ rt = 8 ∨ rt = 10) →
        get16 d 4 = .ok ver → ver < 222 →
        get16 d 50 = .ok opts → opts &&& 128 ≠ 0 →
        read_roi d = .ok r →
        ∃ pts, claimIntPath d = .ok pts ∧ r = .ints pts) := by
  constructor
  · intro options version
    simp [subPixelCalc, Bool.and_eq_true]
  intro d rt ver opts r h6 hrtm h4 hver h50 hbit hok
  rw [read_roi] at hok
  by_cases hm : d.take 4 = [73, 111, 117, 116]
  case neg =>
    rw [if_neg hm] at hok
    exact Except.noConfusion hok
  rw [if_pos hm, h4, exceptBind_ok, h6, exceptBind_ok] at hok
  cases h7 : get8 d 7 with
  | error e => rw [h7, exceptBind_error] at hok; exact Except.noConfusion hok
  | ok v7 => ?_
  rw [h7, exceptBind_ok] at hok
  cases h8 : get16 d 8 with
  | error e => rw [h8, exceptBind_error] at hok; exact Except.noConfusion hok
  | ok top => ?_
  rw [h8, exceptBind_ok] at hok
  cases h10 : get16 d 10 with
  | error e => rw [h10, exceptBind_error] at hok; exact Except.noConfusion hok
  | ok left => ?_
  rw [h10, exceptBind_ok] at hok
  cases h12 : get16 d 12 with
  | error e => rw [h12, exceptBind_error] at hok; exact Except.noConfusion hok
  | ok bottom => ?_
  rw [h12, exceptBind_ok] at hok
  cases h14 : get16 d 14 with
  | error e => rw [h14, exceptBind_error] at hok; exact Except.noConfusion hok
  | ok right => ?_
  rw [h14, exceptBind_ok] at hok
  cases h16 : get16 d 16 with
  | error e => rw [h16, exceptBind_error] at hok; exact Except.noConfusion hok
  | ok n => ?_
  rw [h16, exceptBind_ok] at hok
  cases h18 : getfloat d 18 with
  | error e => rw [h18, exceptBind_error] at hok; exact Except.noConfusion hok
  | ok x1 => ?_
  rw [h18, exceptBind_ok] at hok
  cases h22 : getfloat d 22 with
  | error e => rw [h22, exceptBind_error] at hok; exact Except.noConfusion hok
  | ok y1 => ?_
  rw [h22, exceptBind_ok] at hok
  cases h26 : getfloat d 26 with
  | error e => rw [h26, exceptBind_error] at hok; exact Except.noConfusion hok
  | ok x2 => ?_
  rw [h26, exceptBind_ok] at hok
  cases h30 : getfloat d 30 with
  | error e => rw [h30, exceptBind_error] at hok; exact Except.noConfusion hok
  | ok y2 => ?_
  rw [h30, exceptBind_ok] at hok
  cases h34 : get16 d 34 with
  | error e => rw [h34, exceptBind_error] at hok; exact Except.noConfusion hok
  | ok v34 => ?_
  rw [h34, exceptBind_ok] at hok
  cases h36 : get32 d 36 with
  | error e => rw [h36, exceptBind_error] at hok; exact Except.noConfusion hok
  | ok v36 => ?_
  rw [h36, exceptBind_ok] at hok
  cases h40 : get32 d 40 with
  | error e => rw [h40, exceptBind_error] at hok; exact Except.noConfusion hok
  | ok v40 => ?_
  rw [h40, exceptBind_ok] at hok
  cases h44 : get32 d 44 with
  | error e => rw [h44, exceptBind_error] at hok; exact Except.noConfusion hok
  | ok v44 => ?_
  rw [h44, exceptBind_ok] at hok
  cases h48 : get16 d 48 with
  | error e => rw [h48, exceptBind_error] at hok; exact Except.noConfusion hok
  | ok subv => ?_
  rw [h48, exceptBind_ok] at hok
  rw [h50, exceptBind_ok] at hok
  cases h52 : get8 d 52 with
  | error e => rw [h52, exceptBind_error] at hok; exact Except.noConfusion hok
  | ok v52 => ?_
  rw [h52, exceptBind_ok] at hok
  cases h53 : get8 d 53 with
  | error e => rw [h53, exceptBind_error] at hok; exact Except.noConfusion hok
  | ok v53 => ?_
  rw [h53, exceptBind_ok] at hok
  cases h54 : get16 d 54 with
  | error e => rw [h54, exceptBind_error] at hok; exact Except.noConfusion hok
  | ok v54 => ?_
  rw [h54, exceptBind_ok] at hok
  cases h56 : get32 d 56 with
  | error e => rw [h56, exceptBind_error] at hok; exact Except.noConfusion hok
  | ok v56 => ?_
  rw [h56, exceptBind_ok] at hok
  cases h60 : get32 d 60 with
  | error e => rw [h60, exceptBind_error] at hok; exact Except.noConfusion hok
  | ok h2off => ?_
  rw [h60, exceptBind_ok] at hok
  have hsp : subPixelCalc opts ver = false := by
    unfold subPixelCalc
    rw [decide_eq_false (by omega : ¬ (222 ≤ ver))]
    exact Bool.and_false _
  rw [if_pos (by rcases hrtm with rfl | rfl | rfl | rfl <;> norm_num :
    rt = 7 ∨ rt = 8 ∨ rt = 0 ∨ rt = 1 ∨ rt = 10 ∨ rt = 2)] at hok
  by_cases hs : subv ≠ 0
  case pos =>
    rw [if_pos hs] at hok
    exact Except.noConfusion hok
  rw [if_neg hs] at hok
  rw [if_neg (by rcases hrtm with rfl | rfl | rfl | rfl <;> norm_num : ¬ rt = 2)] at hok
  rw [if_neg (by rcases hrtm with rfl | rfl | rfl | rfl <;> norm_num : ¬ rt = 1)] at hok
  rw [hsp] at hok
  rw [if_neg (by norm_num : ¬ (false = true))] at hok
  cases hc : getN16 d 64 n with
  | error e => rw [hc, exceptBind_error] at hok; exact Except.noConfusion hok
  | ok cols => ?_
  rw [hc, exceptBind_ok] at hok
  cases hr2 : getN16 d (64 + 2 * n) n with
  | error e => rw [hr2, exceptBind_error] at hok; exact Except.noConfusion hok
  | ok rows => ?_
  rw [hr2, exceptBind_ok] at hok
  cases hno : get32 d (h2off + 16) with
  | error e => rw [hno, exceptBind_error] at hok; exact Except.noConfusion hok
  | ok nameOff => ?_
  rw [hno, exceptBind_ok] at hok
  cases hnl : get32 d (h2off + 20) with
  | error e => rw [hnl, exceptBind_error] at hok; exact Except.noConfusion hok
  | ok nameLen => ?_
  rw [hnl, exceptBind_ok] at hok
  cases hnm : getN16 d nameOff nameLen with
  | error e => rw [hnm, exceptBind_error] at hok; exact Except.noConfusion hok
  | ok nmv => ?_
  rw [hnm, exceptBind_ok] at hok
  refine ⟨(rows.zip cols).map fun rc =>
    (wrap16 (toInt16 rc.1 + (top : ℤ)), wrap16 (toInt16 rc.2 + (left : ℤ))), ?_, ?_⟩
  · rw [claimIntPath, h8, exceptBind_ok, h10, exceptBind_ok, h16, exceptBind_ok,
      hc, exceptBind_ok, hr2, exceptBind_ok]
    rfl
  · exact (Except.ok.injEq _ _).mp hok.symm

/-- A concrete polygon record with version 217 and the sub-pixel option
bit set (byte 51 = 128): the version gate must force the integer path. -/
def sampleGated : List Nat :=
  [73, 111, 117, 116, 0, 217, 0, 0, 0, 5, 0, 4, 0, 5, 0, 4, 0, 1,
   0, 0, 0, 0, 0, 0, 0, 0, 0, 0, 0, 0, 0, 0, 0, 0,
   0, 0, 0, 0, 0, 0, 0, 0, 0, 0, 0, 0, 0, 0,
   0, 0, 0, 128, 0, 0, 0, 0, 0, 0, 0, 1, 0, 0, 0, 68,
   0, 0, 0, 0,
   0, 0, 0, 0, 0, 0, 0, 0, 0, 0, 0, 0, 0, 0, 0, 0,
   0, 0, 0, 120, 0, 0, 0, 1,
   0, 0, 0, 0, 0, 0, 0, 0, 0, 0, 0, 0, 0, 0, 0, 0,
   0, 0, 0, 0, 0, 0, 0, 0, 0, 0, 0, 0,
   0, 97]

set_option maxRecDepth 8192 in
/-- C3 witness: the gated sample decodes on the integer path to the
point `(5, 4)`, matching the claim's integer-path formula. -/
theorem C3_subpixel_gating_witness :
    subPixelCalc 128 217 = false ∧
      claimIntPath sampleGated = .ok [((5:ℤ), (4:ℤ))] ∧
      read_roi sampleGated = .ok (.ints [((5:ℤ), (4:ℤ))]) := by
  obtain ⟨pts, h1, h2⟩ := C3_subpixel_gating.2 sampleGated 0 217 128
    (.ints [((5:ℤ), (4:ℤ))]) (by decide) (by norm_num) (by decide) (by norm_num)
    (by decide) (by decide) (by decide)
  injection h2 with h3
  refine ⟨rfl, ?_, by decide⟩
  rw [h1, ← h3]

/-! ## In-bounds header reads (C4, C5, C9) -/

theorem get8_ok (d : List Nat) (i : Nat) (h : i < d.length) :
    get8 d i = .ok (byteD d i) := by
  unfold get8 byteD
  rw [List.getD_eq_get?]
  cases h2 : d.get? i with
  | none =>
    rw [List.get?_eq_none] at h2
    omega
  | some b => rfl

theorem get16_ok (d : List Nat) (i : Nat) (h : i + 1 < d.length) :
    get16 d i = .ok (hdr16 d i) := by
  rw [get16, get8_ok d i (by omega), exceptBind_ok, get8_ok d (i + 1) (by omega),
    exceptBind_ok]
  rfl

theorem get32_ok (d : List Nat) (i : Nat) (h : i + 3 < d.length) :
    get32 d i = .ok (hdr32 d i) := by
  rw [get32, get16_ok d i (by omega), exceptBind_ok, get16_ok d (i + 2) (by omega),
    exceptBind_ok]
  rfl

theorem getfloat_ok (d : List Nat) (i : Nat) (h : i + 3 < d.length) :
    getfloat d i = .ok (decodeF32 (hdr32 d i)) := by
  rw [getfloat, get32_ok d i h, exceptBind_ok]
  rfl

/-- The rectangle decode value, as stated by the spec: the four corners
in clockwise-from-top-left order. -/
def rectValue (d : List Nat) : RoiResult :=
  if subPixelCalc (hdr16 d 50) (hdr16 d 4) then
    .floats [(decodeF32 (hdr32 d 22), decodeF32 (hdr32 d 18)),
      (decodeF32 (hdr32 d 22), f32add (decodeF32 (hdr32 d 18)) (decodeF32 (hdr32 d 26))),
      (f32add (decodeF32 (hdr32 d 22)) (decodeF32 (hdr32 d 30)),
        f32add (decodeF32 (hdr32 d 18)) (decodeF32 (hdr32 d 26))),
      (f32add (decodeF32 (hdr32 d 22)) (decodeF32 (hdr32 d 30)), decodeF32 (hdr32 d 18))]
  else
    .ints [(toInt16 (hdr16 d 8), toInt16 (hdr16 d 10)),
      (toInt16 (hdr16 d 8), toInt16 (hdr16 d 14)),
      (toInt16 (hdr16 d 12), toInt16 (hdr16 d 14)),
      (toInt16 (hdr16 d 12), toInt16 (hdr16 d 10))]

theorem rect_decode_eq (d : List Nat)
    (hm : d.take 4 = [73, 111, 117, 116]) (hlen : 64 ≤ d.length)
    (htype : byteD d 6 = 1) (hsub : hdr16 d 48 = 0) :
    read_roi d = .ok (rectValue d) := by
  rw [read_roi, if_pos hm]
  rw [get16_ok d 4 (by omega), exceptBind_ok]
  rw [get8_ok d 6 (by omega), exceptBind_ok]
  rw [get8_ok d 7 (by omega), exceptBind_ok]
  rw [get16_ok d 8 (by omega), exceptBind_ok]
  rw [get16_ok d 10 (by omega), exceptBind_ok]
  rw [get16_ok d 12 (by omega), exceptBind_ok]
  rw [get16_ok d 14 (by omega), exceptBind_ok]
  rw [get16_ok d 16 (by omega), exceptBind_ok]
  rw [getfloat_ok d 18 (by omega), exceptBind_ok]
  rw [getfloat_ok d 22 (by omega), exceptBind_ok]
  rw [getfloat_ok d 26 (by omega), exceptBind_ok]
  rw [getfloat_ok d 30 (by omega), exceptBind_ok]
  rw [get16_ok d 34 (by omega), exceptBind_ok]
  rw [get32_ok d 36 (by omega), exceptBind_ok]
  rw [get32_ok d 40 (by omega), exceptBind_ok]
  rw [get32_ok d 44 (by omega), exceptBind_ok]
  rw [get16_ok d 48 (by omega), exceptBind_ok]
  rw [get16_ok d 50 (by omega), exceptBind_ok]
  rw [get8_ok d 52 (by omega), exceptBind_ok]
  rw [get8_ok d 53 (by omega), exceptBind_ok]
  rw [get16_ok d 54 (by omega), exceptBind_ok]
  rw [get32_ok d 56 (by omega), exceptBind_ok]
  rw [get32_ok d 60 (by omega), exceptBind_ok]
  rw [htype, hsub]
  rw [if_pos (by norm_num : (1:ℕ) = 7 ∨ (1:ℕ) = 8 ∨ (1:ℕ) = 0 ∨ (1:ℕ) = 1 ∨
    (1:ℕ) = 10 ∨ (1:ℕ) = 2)]
  rw [if_neg (by norm_num : ¬((0:ℕ) ≠ 0))]
  rw [if_neg (by norm_num : ¬((1:ℕ) = 2))]
  rw [if_pos (rfl : (1:ℕ) = 1)]
  rw [rectValue]
  cases hsp : subPixelCalc (hdr16 d 50) (hdr16 d 4) with
  | true => rw [if_pos rfl, if_pos rfl]
  | false =>
    rw [if_neg (by norm_num : ¬(false = true))]
    rw [if_neg (by norm_num : ¬(false = true))]

theorem byteD_take64 (d : List Nat) (i : Nat) (hlen : 64 ≤ d.length) (hi : i < 64) :
    byteD (d.take 64) i = byteD d i := by
  unfold byteD
  rw [List.getD_eq_get?, List.getD_eq_get?, List.get?_take hi]

theorem hdr16_take64 (d : List Nat) (i : Nat) (hlen : 64 ≤ d.length) (hi : i + 1 < 64) :
    hdr16 (d.take 64) i = hdr16 d i := by
  unfold hdr16
  rw [byteD_take64 d i hlen (by omega), byteD_take64 d (i + 1) hlen (by omega)]

theorem hdr32_take64 (d : List Nat) (i : Nat) (hlen : 64 ≤ d.length) (hi : i + 3 < 64) :
    hdr32 (d.take 64) i = hdr32 d i := by
  unfold hdr32
  rw [hdr16_take64 d i hlen (by omega), hdr16_take64 d (i + 2) hlen (by omega)]

/-- C5 (confirmed): a Rect record decodes to exactly 4 corners — the
sub-pixel float corners `[(y1,x1),(y1,x1+x2),(y1+y2,x1+x2),(y1+y2,x1)]`
or the int16 corners `[(top,left),(top,right),(bottom,right),(bottom,left)]`
in that exact order — and the result is already determined by the
64-byte header, so the coordinate payload and name fields are not
read. -/
theorem C5_rect_decode (d : List Nat)
    (hm : d.take 4 = [73, 111, 117, 116]) (hlen : 64 ≤ d.length)
    (htype : byteD d 6 = 1) (hsub : hdr16 d 48 = 0) :
    read_roi d = .ok (rectValue d) ∧ read_roi d = read_roi (d.take 64) := by
  refine ⟨rect_decode_eq d hm hlen htype hsub, ?_⟩
  have hm2 : (d.take 64).take 4 = [73, 111, 117, 116] := by
    rw [List.take_take]
    simpa using hm
  have hlen2 : 64 ≤ (d.take 64).length := by
    rw [List.length_take]
    omega
  have ht2 : byteD (d.take 64) 6 = 1 := by rw [byteD_take64 d 6 hlen (by omega)]; exact htype
  have hs2 : hdr16 (d.take 64) 48 = 0 := by rw [hdr16_take64 d 48 hlen (by omega)]; exact hsub
  rw [rect_decode_eq d hm hlen htype hsub,
    rect_decode_eq (d.take 64) hm2 hlen2 ht2 hs2]
  unfold rectValue
  rw [hdr16_take64 d 50 hlen (by omega), hdr16_take64 d 4 hlen (by omega),
    hdr32_take64 d 22 hlen (by omega), hdr32_take64 d 18 hlen (by omega),
    hdr32_take64 d 26 hlen (by omega), hdr32_take64 d 30 hlen (by omega),
    hdr16_take64 d 8 hlen (by omega), hdr16_take64 d 10 hlen (by omega),
    hdr16_take64 d 14 hlen (by omega), hdr16_take64 d 12 hlen (by omega)]

/-- A concrete 64-byte non-sub-pixel rectangle record
(top 5, left 4, bottom 10, right 8). -/
def sampleRect : List Nat :=
  [73, 111, 117, 116, 0, 217, 1, 0, 0, 5, 0, 4, 0, 10, 0, 8, 0, 0,
   0, 0, 0, 0, 0, 0, 0, 0, 0, 0, 0, 0, 0, 0, 0, 0,
   0, 0, 0, 0, 0, 0, 0, 0, 0, 0, 0, 0, 0, 0,
   0, 0, 0, 0, 0, 0, 0, 0, 0, 0, 0, 0, 0, 0, 0, 0]

/-- C5 witness: the concrete rectangle decodes to its four corners in
clockwise-from-top-left order. -/
theorem C5_rect_decode_witness :
    read_roi sampleRect = .ok (rectValue sampleRect) ∧
      read_roi sampleRect = read_roi (sampleRect.take 64) ∧
      rectValue sampleRect =
        .ints [((5:ℤ), (4:ℤ)), (5, 8), (10, 8), (10, 4)] := by
  obtain ⟨h1, h2⟩ := C5_rect_decode sampleRect (by decide) (by decide)
    (by decide) (by decide)
  exact ⟨h1, h2, by decide⟩

/-! ## Oval rasterization (C4, C9) -/

theorem ovalTest_ok (cX cY rx ry : ℚ) (cx cy : Nat)
    (hrx : rx ≠ 0) (hry : ry ≠ 0) :
    ovalTest cX cY rx ry cx cy =
      .ok (decide (((cx : ℚ) + 1 / 2 - cX) ^ 2 / rx ^ 2 +
        ((cy : ℚ) + 1 / 2 - cY) ^ 2 / ry ^ 2 ≤ 1)) := by
  simp only [ovalTest, pydiv]
  rw [if_neg (pow_ne_zero 2 hrx), exceptBind_ok, if_neg (pow_ne_zero 2 hry),
    exceptBind_ok]
  rfl

theorem ovalTest_err (cX cY rx ry : ℚ) (cx cy : Nat) (h : rx = 0 ∨ ry = 0) :
    ovalTest cX cY rx ry cx cy = .error .zeroDiv := by
  by_cases hrx : rx = 0
  · simp only [ovalTest, pydiv]
    rw [if_pos (by rw [hrx]; ring)]
    rfl
  · rcases h with h | hry
    · exact absurd h hrx
    · simp only [ovalTest, pydiv]
      rw [if_neg (pow_ne_zero 2 hrx), exceptBind_ok, if_pos (by rw [hry]; ring)]
      rfl

theorem filter_cons_pos {α : Type} (p : α → Bool) (a : α) (l : List α)
    (h : p a = true) : (a :: l).filter p = a :: l.filter p := by
  rw [List.filter_cons, if_pos h]

theorem filter_cons_neg {α : Type} (p : α → Bool) (a : α) (l : List α)
    (h : p a = false) : (a :: l).filter p = l.filter p := by
  rw [List.filter_cons, if_neg (by rw [h]; exact Bool.false_ne_true)]

theorem ovalInner_ok (cX cY rx ry : ℚ) (cx : Nat) (ys : List Nat)
    (hrx : rx ≠ 0) (hry : ry ≠ 0) :
    ovalInner cX cY rx ry cx ys =
      .ok ((ys.filter (fun (cy : Nat) => decide (((cx : ℚ) + 1 / 2 - cX) ^ 2 / rx ^ 2 +
          ((cy : ℚ) + 1 / 2 - cY) ^ 2 / ry ^ 2 ≤ 1))).map
        (fun cy => (toInt16 cy, toInt16 cx))) := by
  induction ys with
  | nil => rfl
  | cons y ys ih =>
    simp only [ovalInner]
    rw [ovalTest_ok cX cY rx ry cx y hrx hry, exceptBind_ok, ih, exceptBind_ok]
    cases hb : decide (((cx : ℚ) + 1 / 2 - cX) ^ 2 / rx ^ 2 +
        ((y : ℚ) + 1 / 2 - cY) ^ 2 / ry ^ 2 ≤ 1) with
    | true =>
      rw [if_pos rfl, filter_cons_pos _ y ys hb, List.map_cons]
      rfl
    | false =>
      rw [if_neg (by exact Bool.false_ne_true), filter_cons_neg _ y ys hb]
      rfl

theorem ovalOuter_ok (cX cY rx ry : ℚ) (ys xs : List Nat)
    (hrx : rx ≠ 0) (hry : ry ≠ 0) :
    ovalOuter cX cY rx ry ys xs =
      .ok (xs.flatMap (fun (cx : Nat) =>
        (ys.filter (fun (cy : Nat) => decide (((cx : ℚ) + 1 / 2 - cX) ^ 2 / rx ^ 2 +
          ((cy : ℚ) + 1 / 2 - cY) ^ 2 / ry ^ 2 ≤ 1))).map
          (fun cy => (toInt16 cy, toInt16 cx)))) := by
  induction xs with
  | nil => rfl
  | cons x xs ih =>
    simp only [ovalOuter]
    rw [ovalInner_ok cX cY rx ry x ys hrx hry, exceptBind_ok, ih, exceptBind_ok,
      List.flatMap_cons]
    rfl

/-- The ellipse-membership predicate exactly as the claim words it: the
pixel center `(cx+0.5, cy+0.5)` is tested against
`((x-center_x)^2/rx^2) + ((y-center_y)^2/ry^2) <= 1.0` with
`rx = (right-left)/2`, `ry = (bottom-top)/2`,
`center = (left+rx, top+ry)`. -/
def ovalSpecPred (top left bottom right cx cy : Nat) : Bool :=
  let rx : ℚ := ((right : ℚ) - (left : ℚ)) / 2
  let ry : ℚ := ((bottom : ℚ) - (top : ℚ)) / 2
  decide (((cx : ℚ) + 1 / 2 - ((left : ℚ) + rx)) ^ 2 / rx ^ 2 +
    ((cy : ℚ) + 1 / 2 - ((top : ℚ) + ry)) ^ 2 / ry ^ 2 ≤ 1)

/-- The point list the claim asserts an Oval record decodes to: every
integer pair with `cx ∈ [left, right]`, `cy ∈ [top, bottom]` passing the
ellipse test, emitted as `(cy, cx)` rows in scan order (outer loop over
`cx`, inner over `cy`). -/
def ovalSpecPoints (top left bottom right : Nat) : List (ℤ × ℤ) :=
  (natRange left right).flatMap (fun (cx : Nat) =>
    ((natRange top bottom).filter (fun (cy : Nat) => ovalSpecPred top left bottom right cx cy)).map
      (fun (cy : Nat) => ((cy : ℤ), (cx : ℤ))))

theorem ovalDecode_ok (t l b r : Nat) (hlr : l ≠ r) (htb : t ≠ b) :
    ovalDecode t l b r = .ok (.ints ((natRange l r).flatMap (fun cx =>
      ((natRange t b).filter (fun cy => ovalSpecPred t l b r cx cy)).map
        (fun cy => (toInt16 cy, toInt16 cx))))) := by
  have hrx : ((((r : ℤ) - (l : ℤ) : ℤ) : ℚ) / 2) ≠ 0 := by
    intro h
    rw [div_eq_zero_iff] at h
    rcases h with h | h
    · rw [Int.cast_eq_zero] at h
      omega
    · norm_num at h
  have hry : ((((b : ℤ) - (t : ℤ) : ℤ) : ℚ) / 2) ≠ 0 := by
    intro h
    rw [div_eq_zero_iff] at h
    rcases h with h | h
    · rw [Int.cast_eq_zero] at h
      omega
    · norm_num at h
  simp only [ovalDecode]
  rw [ovalOuter_ok _ _ _ _ _ _ hrx hry, exceptBind_ok]
  have hc1 : (((r : ℤ) - (l : ℤ) : ℤ) : ℚ) = (r : ℚ) - (l : ℚ) := by
    push_cast
    ring
  have hc2 : (((b : ℤ) - (t : ℤ) : ℤ) : ℚ) = (b : ℚ) - (t : ℚ) := by
    push_cast
    ring
  simp only [ovalSpecPred, hc1, hc2]
  rfl

theorem ovalDecode_err (t l b r : Nat) (hdeg : l = r ∨ t = b)
    (hlr : l ≤ r) (htb : t ≤ b) :
    ovalDecode t l b r = .error .zeroDiv := by
  have hrxy : (((r : ℤ) - (l : ℤ) : ℤ) : ℚ) / 2 = 0 ∨
      (((b : ℤ) - (t : ℤ) : ℤ) : ℚ) / 2 = 0 := by
    rcases hdeg with h | h
    · left
      rw [h]
      simp
    · right
      rw [h]
      simp
  obtain ⟨xs, hxs⟩ : ∃ xs, natRange l r = l :: xs := by
    refine ⟨List.range' (l + 1) (r - l), ?_⟩
    rw [natRange, show r + 1 - l = (r - l) + 1 from by omega]
    rfl
  obtain ⟨ys, hys⟩ : ∃ ys, natRange t b = t :: ys := by
    refine ⟨List.range' (t + 1) (b - t), ?_⟩
    rw [natRange, show b + 1 - t = (b - t) + 1 from by omega]
    rfl
  simp only [ovalDecode]
  rw [hxs, hys]
  simp only [ovalOuter, ovalInner]
  rw [ovalTest_err _ _ _ _ _ _ hrxy]
  rfl

theorem flatMap_congr {α β : Type} (l : List α) (f g : α → List β)
    (h : ∀ a ∈ l, f a = g a) : l.flatMap f = l.flatMap g := by
  induction l with
  | nil => rfl
  | cons x xs ih =>
    rw [List.flatMap_cons, List.flatMap_cons, h x (List.mem_cons_self x xs),
      ih (fun a ha => h a (List.mem_cons_of_mem x ha))]

theorem mem_natRange_le {a b m : Nat} (h : m ∈ natRange a b) : m ≤ b := by
  rw [natRange, List.mem_range'_1] at h
  omega

theorem oval_decode_eq (d : List Nat)
    (hm : d.take 4 = [73, 111, 117, 116]) (hlen : 64 ≤ d.length)
    (htype : byteD d 6 = 2) (hsub : hdr16 d 48 = 0)
    (hsp : subPixelCalc (hdr16 d 50) (hdr16 d 4) = false) :
    read_roi d = ovalDecode (hdr16 d 8) (hdr16 d 10) (hdr16 d 12) (hdr16 d 14) := by
  rw [read_roi, if_pos hm]
  rw [get16_ok d 4 (by omega), exceptBind_ok]
  rw [get8_ok d 6 (by omega), exceptBind_ok]
  rw [get8_ok d 7 (by omega), exceptBind_ok]
  rw [get16_ok d 8 (by omega), exceptBind_ok]
  rw [get16_ok d 10 (by omega), exceptBind_ok]
  rw [get16_ok d 12 (by omega), exceptBind_ok]
  rw [get16_ok d 14 (by omega), exceptBind_ok]
  rw [get16_ok d 16 (by omega), exceptBind_ok]
  rw [getfloat_ok d 18 (by omega), exceptBind_ok]
  rw [getfloat_ok d 22 (by omega), exceptBind_ok]
  rw [getfloat_ok d 26 (by omega), exceptBind_ok]
  rw [getfloat_ok d 30 (by omega), exceptBind_ok]
  rw [get16_ok d 34 (by omega), exceptBind_ok]
  rw [get32_ok d 36 (by omega), exceptBind_ok]
  rw [get32_ok d 40 (by omega), exceptBind_ok]
  rw [get32_ok d 44 (by omega), exceptBind_ok]
  rw [get16_ok d 48 (by omega), exceptBind_ok]
  rw [get16_ok d 50 (by omega), exceptBind_ok]
  rw [get8_ok d 52 (by omega), exceptBind_ok]
  rw [get8_ok d 53 (by omega), exceptBind_ok]
  rw [get16_ok d 54 (by omega), exceptBind_ok]
  rw [get32_ok d 56 (by omega), exceptBind_ok]
  rw [get32_ok d 60 (by omega), exceptBind_ok]
  rw [htype, hsub]
  rw [if_pos (by norm_num : (2:ℕ) = 7 ∨ (2:ℕ) = 8 ∨ (2:ℕ) = 0 ∨ (2:ℕ) = 1 ∨
    (2:ℕ) = 10 ∨ (2:ℕ) = 2)]
  rw [if_neg (by norm_num : ¬((0:ℕ) ≠ 0))]
  rw [if_pos (rfl : (2:ℕ) = 2)]
  rw [hsp]
  rw [if_neg (by norm_num : ¬(false = true))]

theorem oval_value_eq (d : List Nat)
    (hm : d.take 4 = [73, 111, 117, 116]) (hlen : 64 ≤ d.length)
    (htype : byteD d 6 = 2) (hsub : hdr16 d 48 = 0)
    (hsp : subPixelCalc (hdr16 d 50) (hdr16 d 4) = false)
    (hlr : hdr16 d 10 ≠ hdr16 d 14) (htb : hdr16 d 8 ≠ hdr16 d 12)
    (hrB : hdr16 d 14 < 32768) (hbB : hdr16 d 12 < 32768) :
    read_roi d = .ok (.ints (ovalSpecPoints (hdr16 d 8) (hdr16 d 10)
      (hdr16 d 12) (hdr16 d 14))) := by
  rw [oval_decode_eq d hm hlen htype hsub hsp,
    ovalDecode_ok (hdr16 d 8) (hdr16 d 10) (hdr16 d 12) (hdr16 d 14) hlr htb]
  congr 1
  congr 1
  rw [ovalSpecPoints]
  apply flatMap_congr
  intro cx hcx
  apply List.map_congr_left
  intro cy hcy
  have hcx2 : cx ≤ hdr16 d 14 := mem_natRange_le hcx
  have hcy2 : cy ≤ hdr16 d 12 := mem_natRange_le (List.mem_filter.mp hcy).1
  rw [toInt16_small cy (by omega), toInt16_small cx (by omega)]

/-- C4 (corrected): a non-sub-pixel Oval record with a non-degenerate
bounding box (`left ≠ right` and `top ≠ bottom`) whose `right` and
`bottom` fields fit in a signed 16-bit value decodes to exactly the
`(corner_y, corner_x)` pairs whose pixel center passes the ellipse
inequality, scanned with `corner_x` as the outer loop and `corner_y` as
the inner loop, and the result is determined by the 64-byte header
alone (the coordinate payload and name fields are not read).  The
claim's unqualified version is false: a degenerate bounding box raises
`ZeroDivisionError` instead (see the counterexample). -/
theorem C4_oval_decode (d : List Nat)
    (hm : d.take 4 = [73, 111, 117, 116]) (hlen : 64 ≤ d.length)
    (htype : byteD d 6 = 2) (hsub : hdr16 d 48 = 0)
    (hsp : subPixelCalc (hdr16 d 50) (hdr16 d 4) = false)
    (hlr : hdr16 d 10 ≠ hdr16 d 14) (htb : hdr16 d 8 ≠ hdr16 d 12)
    (hrB : hdr16 d 14 < 32768) (hbB : hdr16 d 12 < 32768) :
    read_roi d = .ok (.ints (ovalSpecPoints (hdr16 d 8) (hdr16 d 10)
      (hdr16 d 12) (hdr16 d 14))) ∧ read_roi d = read_roi (d.take 64) := by
  refine ⟨oval_value_eq d hm hlen htype hsub hsp hlr htb hrB hbB, ?_⟩
  have hm2 : (d.take 64).take 4 = [73, 111, 117, 116] := by
    rw [List.take_take]
    simpa using hm
  have hlen2 : 64 ≤ (d.take 64).length := by
    rw [List.length_take]
    omega
  have ht2 : byteD (d.take 64) 6 = 2 := by
    rw [byteD_take64 d 6 hlen (by omega)]
    exact htype
  have hs2 : hdr16 (d.take 64) 48 = 0 := by
    rw [hdr16_take64 d 48 hlen (by omega)]
    exact hsub
  have hsp2 : subPixelCalc (hdr16 (d.take 64) 50) (hdr16 (d.take 64) 4) = false := by
    rw [hdr16_take64 d 50 hlen (by omega), hdr16_take64 d 4 hlen (by omega)]
    exact hsp
  have e8 := hdr16_take64 d 8 hlen (by omega)
  have e10 := hdr16_take64 d 10 hlen (by omega)
  have e12 := hdr16_take64 d 12 hlen (by omega)
  have e14 := hdr16_take64 d 14 hlen (by omega)
  have hlr2 : hdr16 (d.take 64) 10 ≠ hdr16 (d.take 64) 14 := by
    rw [e10, e14]
    exact hlr
  have htb2 : hdr16 (d.take 64) 8 ≠ hdr16 (d.take 64) 12 := by
    rw [e8, e12]
    exact htb
  have hrB2 : hdr16 (d.take 64) 14 < 32768 := by
    rw [e14]
    exact hrB
  have hbB2 : hdr16 (d.take 64) 12 < 32768 := by
    rw [e12]
    exact hbB
  rw [oval_value_eq d hm hlen htype hsub hsp hlr htb hrB hbB,
    oval_value_eq (d.take 64) hm2 hlen2 ht2 hs2 hsp2 hlr2 htb2 hrB2 hbB2,
    e8, e10, e12, e14]

/-- A concrete 64-byte non-sub-pixel oval record with bounding box
top 0, left 0, bottom 2, right 2. -/
def sampleOvalW : List Nat :=
  [73, 111, 117, 116, 0, 217, 2, 0, 0, 0, 0, 0, 0, 2, 0, 2, 0, 0,
   0, 0, 0, 0, 0, 0, 0, 0, 0, 0, 0, 0, 0, 0, 0, 0,
   0, 0, 0, 0, 0, 0, 0, 0, 0, 0, 0, 0, 0, 0,
   0, 0, 0, 0, 0, 0, 0, 0, 0, 0, 0, 0, 0, 0, 0, 0]

set_option maxRecDepth 8192 in
/-- C4 witness: the concrete 3x3 oval decodes to the four interior
pixels, in scan order. -/
theorem C4_oval_decode_witness :
    read_roi sampleOvalW = .ok (.ints (ovalSpecPoints (hdr16 sampleOvalW 8)
        (hdr16 sampleOvalW 10) (hdr16 sampleOvalW 12) (hdr16 sampleOvalW 14))) ∧
      read_roi sampleOvalW = read_roi (sampleOvalW.take 64) ∧
      ovalSpecPoints 0 0 2 2 = [(0, 0), (1, 0), (0, 1), (1, 1)] := by
  obtain ⟨h1, h2⟩ := C4_oval_decode sampleOvalW (by decide) (by decide)
    (by decide) (by decide) (by decide) (by decide) (by decide) (by decide) (by decide)
  refine ⟨h1, h2, ?_⟩
  have h : natRange 0 2 = [0, 1, 2] := by decide
  norm_num [ovalSpecPoints, ovalSpecPred, h, decide_eq_true_eq, List.filter_cons]

/-- A concrete 64-byte non-sub-pixel oval record with a fully degenerate
bounding box (top = left = bottom = right = 0). -/
def sampleOvalDeg : List Nat :=
  [73, 111, 117, 116, 0, 217, 2, 0, 0, 0, 0, 0, 0, 0, 0, 0, 0, 0,
   0, 0, 0, 0, 0, 0, 0, 0, 0, 0, 0, 0, 0, 0, 0, 0,
   0, 0, 0, 0, 0, 0, 0, 0, 0, 0, 0, 0, 0, 0,
   0, 0, 0, 0, 0, 0, 0, 0, 0, 0, 0, 0, 0, 0, 0, 0]

set_option maxRecDepth 8192 in
/-- C4 counterexample: a degenerate non-sub-pixel Oval record raises
`ZeroDivisionError` rather than returning the point list the claim
promises for every non-sub-pixel Oval record. -/
theorem C4_oval_counterexample :
    byteD sampleOvalDeg 6 = 2 ∧ hdr16 sampleOvalDeg 48 = 0 ∧
      subPixelCalc (hdr16 sampleOvalDeg 50) (hdr16 sampleOvalDeg 4) = false ∧
      read_roi sampleOvalDeg = .error .zeroDiv ∧
      ¬(read_roi sampleOvalDeg = .ok (.ints (ovalSpecPoints (hdr16 sampleOvalDeg 8)
        (hdr16 sampleOvalDeg 10) (hdr16 sampleOvalDeg 12) (hdr16 sampleOvalDeg 14)))) := by
  have herr : read_roi sampleOvalDeg = .error .zeroDiv := by
    rw [oval_decode_eq sampleOvalDeg (by decide) (by decide) (by decide)
      (by decide) (by decide)]
    rw [show hdr16 sampleOvalDeg 8 = 0 from by decide,
      show hdr16 sampleOvalDeg 10 = 0 from by decide,
      show hdr16 sampleOvalDeg 12 = 0 from by decide,
      show hdr16 sampleOvalDeg 14 = 0 from by decide]
    exact ovalDecode_err 0 0 0 0 (Or.inl rfl) (le_refl 0) (le_refl 0)
  refine ⟨by decide, by decide, by decide, herr, ?_⟩
  intro hcontra
  rw [herr] at hcontra
  exact Except.noConfusion hcontra

/-- C9 (corrected): a non-sub-pixel Oval record with a degenerate
bounding box (`left = right` or `top = bottom`) raises
`ZeroDivisionError` provided both corner ranges are non-empty
(`left ≤ right` and `top ≤ bottom`); with an empty range the division
is never reached and decode succeeds (see the counterexample). -/
theorem C9_oval_degenerate (d : List Nat)
    (hm : d.take 4 = [73, 111, 117, 116]) (hlen : 64 ≤ d.length)
    (htype : byteD d 6 = 2) (hsub : hdr16 d 48 = 0)
    (hsp : subPixelCalc (hdr16 d 50) (hdr16 d 4) = false)
    (hdeg : hdr16 d 10 = hdr16 d 14 ∨ hdr16 d 8 = hdr16 d 12)
    (hlr : hdr16 d 10 ≤ hdr16 d 14) (htb : hdr16 d 8 ≤ hdr16 d 12) :
    read_roi d = .error .zeroDiv := by
  rw [oval_decode_eq d hm hlen htype hsub hsp]
  exact ovalDecode_err (hdr16 d 8) (hdr16 d 10) (hdr16 d 12) (hdr16 d 14) hdeg hlr htb

set_option maxRecDepth 8192 in
/-- C9 witness: the fully degenerate concrete oval record raises
`ZeroDivisionError`. -/
theorem C9_oval_degenerate_witness :
    read_roi sampleOvalDeg = .error .zeroDiv :=
  C9_oval_degenerate sampleOvalDeg (by decide) (by decide) (by decide)
    (by decide) (by decide) (by decide) (by decide) (by decide)

/-- A concrete 64-byte non-sub-pixel oval record with left = right = 0
(degenerate) but top = 1 > bottom = 0, so the corner-y range is empty. -/
def sampleOvalEmpty : List Nat :=
  [73, 111, 117, 116, 0, 217, 2, 0, 0, 1, 0, 0, 0, 0, 0, 0, 0, 0,
   0, 0, 0, 0, 0, 0, 0, 0, 0, 0, 0, 0, 0, 0, 0, 0,
   0, 0, 0, 0, 0, 0, 0, 0, 0, 0, 0, 0, 0, 0,
   0, 0, 0, 0, 0, 0, 0, 0, 0, 0, 0, 0, 0, 0, 0, 0]

set_option maxRecDepth 8192 in
/-- C9 counterexample: a degenerate oval record (left = right) whose
corner-y range is empty decodes successfully to an empty point array —
no division by zero is raised, refuting the claim's unqualified
"for every degenerate bounding box". -/
theorem C9_oval_counterexample :
    byteD sampleOvalEmpty 6 = 2 ∧ hdr16 sampleOvalEmpty 48 = 0 ∧
      subPixelCalc (hdr16 sampleOvalEmpty 50) (hdr16 sampleOvalEmpty 4) = false ∧
      hdr16 sampleOvalEmpty 10 = hdr16 sampleOvalEmpty 14 ∧
      read_roi sampleOvalEmpty = .ok (.ints []) := by
  decide

/-! ## Zip archive round trip (C8) -/

theorem zfRead_cons_of_mem (h : List Nat × List Nat)
    (rest : List (List Nat × List Nat)) (n : List Nat)
    (hmem : n ∈ rest.map Prod.fst) :
    zfRead (h :: rest) n = zfRead rest n := by
  obtain ⟨e, he, hen⟩ : ∃ e ∈ rest.reverse, (e.1 == n) = true := by
    rw [List.mem_map] at hmem
    obtain ⟨e, he, rfl⟩ := hmem
    exact ⟨e, List.mem_reverse.mpr he, beq_self_eq_true e.1⟩
  have hsome : (rest.reverse.find? (fun x => x.1 == n)).isSome := by
    rw [List.find?_isSome]
    exact ⟨e, he, hen⟩
  obtain ⟨f, hf⟩ := Option.isSome_iff_exists.mp hsome
  unfold zfRead
  rw [List.reverse_cons, List.find?_append, hf]
  rfl

theorem zfRead_cons_self (n bs : List Nat) (rest : List (List Nat × List Nat))
    (hnot : n ∉ rest.map Prod.fst) :
    zfRead ((n, bs) :: rest) n = bs := by
  have hnone : rest.reverse.find? (fun x => x.1 == n) = none := by
    rw [List.find?_eq_none]
    intro x hx hcontra
    apply hnot
    rw [List.mem_map]
    exact ⟨x, List.mem_reverse.mp hx, by simpa using hcontra⟩
  have hone : List.find? (fun x : List Nat × List Nat => x.1 == n) [(n, bs)] =
      some (n, bs) := by
    rw [List.find?_cons]
    simp
  unfold zfRead
  rw [List.reverse_cons, List.find?_append, hnone, Option.none_or, hone]

/-- The archive produced by `write_roi_zip`: one `(suffixed name, record
bytes)` entry per input pair, in order. -/
def zipArchive (pairs : List (List Nat × List (ℤ × ℤ))) : List (List Nat × List Nat) :=
  pairs.map (fun pr => (entryName pr.1, roiBytes pr.2 pr.1))

/-- The per-pair side conditions under which one record round-trips
(non-empty point list, int16-representable coordinates, fewer than 32768
points, bounding-box spans at most 32767, and an encodable name). -/
def validPair (pr : List Nat × List (ℤ × ℤ)) : Prop :=
  pr.2 ≠ [] ∧
    (∀ p ∈ pr.2, (-32768 ≤ p.1 ∧ p.1 < 32768) ∧ (-32768 ≤ p.2 ∧ p.2 < 32768)) ∧
    pr.2.length < 32768 ∧ (∀ c ∈ pr.1, c < 65536) ∧ pr.1.length < 2 ^ 32 ∧
    roiBottom pr.2 - roiTop pr.2 ≤ 32767 ∧ roiRight pr.2 - roiLeft pr.2 ≤ 32767

instance instDecidableValidPair (pr : List Nat × List (ℤ × ℤ)) :
    Decidable (validPair pr) := by
  unfold validPair
  infer_instance

theorem zip_write_eq (pairs : List (List Nat × List (ℤ × ℤ)))
    (hval : ∀ pr ∈ pairs, validPair pr) :
    write_roi_zip pairs 0 = .ok (zipArchive pairs) := by
  induction pairs with
  | nil => rfl
  | cons pr rest ih =>
    obtain ⟨nm, pts⟩ := pr
    obtain ⟨h1, h2, h3, h4, h5, h6, h7⟩ := hval (nm, pts) (List.mem_cons_self _ _)
    simp only [write_roi_zip]
    rw [(roundtrip_aux pts nm h1 h2 h3 h4 h5 h6 h7).1, exceptBind_ok,
      ih (fun q hq => hval q (List.mem_cons_of_mem _ hq)), exceptBind_ok]
    rfl

theorem zip_read_eq (pairs : List (List Nat × List (ℤ × ℤ)))
    (hval : ∀ pr ∈ pairs, validPair pr)
    (hnd : (pairs.map (fun pr => entryName pr.1)).Nodup) :
    read_roi_zip (zipArchive pairs) =
      pairs.map (fun pr => (entryName pr.1, Except.ok (RoiResult.ints pr.2))) := by
  induction pairs with
  | nil => rfl
  | cons pr rest ih =>
    obtain ⟨nm, pts⟩ := pr
    obtain ⟨h1, h2, h3, h4, h5, h6, h7⟩ := hval (nm, pts) (List.mem_cons_self _ _)
    simp only [List.map_cons] at hnd
    rw [List.nodup_cons] at hnd
    have hname_notin : entryName nm ∉
        (List.map (fun pr => (entryName pr.1, roiBytes pr.2 pr.1)) rest).map Prod.fst := by
      intro hcontra
      rw [List.map_map] at hcontra
      exact hnd.1 (by simpa [Function.comp] using hcontra)
    simp only [zipArchive, List.map_cons, read_roi_zip]
    rw [zfRead_cons_self (entryName nm) (roiBytes pts nm) _ hname_notin]
    rw [(roundtrip_aux pts nm h1 h2 h3 h4 h5 h6 h7).2]
    congr 1
    have htail : ∀ e ∈ List.map (fun pr => (entryName pr.1, roiBytes pr.2 pr.1)) rest,
        ((e.1 : List Nat), read_roi (zfRead ((entryName nm, roiBytes pts nm) ::
          List.map (fun pr => (entryName pr.1, roiBytes pr.2 pr.1)) rest) e.1)) =
        (e.1, read_roi (zfRead
          (List.map (fun pr => (entryName pr.1, roiBytes pr.2 pr.1)) rest) e.1)) := by
      intro e he
      rw [zfRead_cons_of_mem _ _ _ (List.mem_map_of_mem Prod.fst he)]
    rw [List.map_congr_left htail]
    have hrest := ih (fun q hq => hval q (List.mem_cons_of_mem _ hq)) hnd.2
    simp only [zipArchive, read_roi_zip] at hrest
    exact hrest

/-- C8 (corrected): writing pairs whose points satisfy the round-trip
side conditions and whose `.roi`-suffixed entry names are pairwise
distinct, then reading the archive back, yields exactly one entry per
input pair, in order, whose points equal the input pair's points — but the
returned names are the suffixed entry names (`name + ".roi"` when the
suffix was missing), not the input names, so the claim's "names match
the input pairs" is false as stated (see the counterexample). -/
theorem C8_zip_roundtrip (pairs : List (List Nat × List (ℤ × ℤ)))
    (hval : ∀ pr ∈ pairs, validPair pr)
    (hnd : (pairs.map (fun pr => entryName pr.1)).Nodup) :
    ∃ archive, write_roi_zip pairs 0 = .ok archive ∧
      archive.length = pairs.length ∧
      read_roi_zip archive =
        pairs.map (fun pr => (entryName pr.1, Except.ok (RoiResult.ints pr.2))) := by
  refine ⟨zipArchive pairs, zip_write_eq pairs hval, ?_, zip_read_eq pairs hval hnd⟩
  rw [zipArchive, List.length_map]

set_option maxRecDepth 8192 in
/-- C8 witness: a two-entry archive round-trips; the returned entry
names carry the `.roi` suffix. -/
theorem C8_zip_roundtrip_witness :
    ∃ archive, write_roi_zip [([97], [((5:ℤ), (4:ℤ))]), ([98], [((1:ℤ), (2:ℤ)), (3, 4)])] 0 =
        .ok archive ∧
      archive.length = 2 ∧
      read_roi_zip archive =
        [([97, 46, 114, 111, 105], Except.ok (RoiResult.ints [((5:ℤ), (4:ℤ))])),
         ([98, 46, 114, 111, 105], Except.ok (RoiResult.ints [((1:ℤ), (2:ℤ)), (3, 4)]))] := by
  obtain ⟨archive, hw, hl, hr⟩ := C8_zip_roundtrip
    [([97], [((5:ℤ), (4:ℤ))]), ([98], [((1:ℤ), (2:ℤ)), (3, 4)])] (by decide) (by decide)
  exact ⟨archive, hw, hl.trans (by rfl), hr.trans (by rfl)⟩

set_option maxRecDepth 8192 in
/-- C8 counterexample: writing the single pair `("a", [(5, 4)])` and
reading the archive back returns the entry name `"a.roi"`, not `"a"`,
so the entry names do not match the input pair names. -/
theorem C8_zip_counterexample :
    ∃ archive, write_roi_zip [([97], [((5:ℤ), (4:ℤ))])] 0 = .ok archive ∧
      (read_roi_zip archive).map Prod.fst = [[97, 46, 114, 111, 105]] ∧
      ¬((read_roi_zip archive).map Prod.fst = [[97]]) := by
  refine ⟨zipArchive [([97], [((5:ℤ), (4:ℤ))])], zip_write_eq _ (by decide), ?_, ?_⟩
  · rw [zip_read_eq _ (by decide) (by decide)]
    rfl
  · rw [zip_read_eq _ (by decide) (by decide)]
    decide

end Ijroi

